import Mathlib

/-!
Verification of the narrative-graph consistency engine and playthrough
simulator of this repository against its natural-language specification.

The definitions below are a shallow embedding of
  api/src/modules/validation/validation.service.ts   (ValidationService)
  api/src/modules/simulation/simulation.service.ts   (SimulationService)
into Lean.  JavaScript numbers are modelled as rationals, JavaScript
objects used as string-keyed maps as insertion-ordered association lists
with update-in-place semantics, and fields that may be absent at runtime
(the records come from jsonb columns) as Option.  Math.random draws are
modelled by an explicit stream of rationals consumed in order, which is
the only source of nondeterminism in the source.  Presentation-only
fields of results (message text, suggestion lists, event ids, wall-clock
durations) carry no logic and are omitted from the embedded records;
every field that any theorem below mentions is embedded faithfully.
-/

/-- JS truthiness for an optional string field (undefined and the empty
string are falsy). -/
def strFalsy : Option String → Bool
  | none => true
  | some s => s == ""

/-- A JSON value as stored in the jsonb condition records. -/
inductive JVal where
  | num (q : ℚ)
  | str (s : String)
  | jbool (b : Bool)
  | jnull
  deriving DecidableEq

/-- JS truthiness of a JSON value (0, the empty string, false and null
are falsy). -/
def JVal.truthy : JVal → Bool
  | .num q => q != 0
  | .str s => s != ""
  | .jbool b => b
  | .jnull => false

/-- JS truthiness for an optional JSON field (undefined is falsy). -/
def valFalsy : Option JVal → Bool
  | none => true
  | some v => !v.truthy

/-- Lookup in a JS object used as a string-keyed map (Map.get /
property read): first matching key. -/
def mapGet {α : Type} (m : List (String × α)) (k : String) : Option α :=
  (m.find? (fun p => p.1 == k)).map (fun p => p.2)

/-- Update in a JS object used as a string-keyed map (Map.set /
property write): replace in place if the key exists, append otherwise,
preserving insertion order. -/
def mapSet {α : Type} (m : List (String × α)) (k : String) (v : α) : List (String × α) :=
  if m.any (fun p => p.1 == k) then
    m.map (fun p => if p.1 == k then (k, v) else p)
  else m ++ [(k, v)]

/-- Math.round on a finite number: floor (x + 1/2). -/
def jsRound (q : ℚ) : ℤ := ⌊q + 1/2⌋

/- ===================== Validation: data model ===================== -/

/-- A condition record inside a jsonb prerequisite or outcome blob.
All fields may be absent at runtime. -/
structure Condition where
  type : Option String
  operator : Option String
  target : Option String
  value : Option JVal
  deriving DecidableEq

/-- A prerequisite record attached to a quest, as the validation
service reads it (an id plus optional condition records). -/
structure PrereqRec where
  id : Option String
  conditions : Option (List Condition)
  deriving DecidableEq

/-- An outcome record attached to a quest (jsonb). -/
structure OutcomeRec where
  description : Option String
  probability : Option ℚ
  conditions : Option (List Condition)
  nextQuestId : Option String
  deriving DecidableEq

/-- A quest record with the fields the validation service uses. -/
structure QuestRec where
  id : String
  title : Option String
  description : Option String
  storyArcId : Option String
  prerequisites : Option (List PrereqRec)
  outcomes : Option (List OutcomeRec)
  deriving DecidableEq

/-- A story-arc record with the fields the validation service uses. -/
structure StoryArcRec where
  id : String
  title : String
  deriving DecidableEq

/-- A dialogue record with the fields the validation service uses. -/
structure DialogueRec where
  id : String
  title : String
  questId : Option String
  deriving DecidableEq

/-- ValidationError.type. -/
inductive ErrType where
  | orphan
  | unreachable
  | broken_chain
  | invalid_condition
  | circular_dependency
  | missing_prerequisites
  deriving DecidableEq

/-- ValidationError.severity. -/
inductive Severity where
  | error
  | warning
  deriving DecidableEq

/-- A validation finding; message and suggestions are presentation-only
strings and are not embedded. -/
structure VError where
  type : ErrType
  nodeId : Option String
  severity : Severity
  deriving DecidableEq

/-- JS string trim is only applied to decide blankness; a string is
blank when it trims to the empty string. -/
def blank (s : String) : Bool := s.trim == ""

/-- Whether an optional string fails the `!s or s.trim().length === 0`
check of the quest-structure rules. -/
def blankOpt : Option String → Bool
  | none => true
  | some s => s == "" || blank s

/- ===================== isValidCondition ===================== -/

/-- isValidCondition from the validation service: the three fields must
be truthy, the type and operator must come from fixed lists (note the
list of valid types has no reputation entry), and stat conditions may
not use has / not_has. -/
def isValidCondition (c : Condition) : Bool :=
  if strFalsy c.type || strFalsy c.operator || valFalsy c.value then false
  else
    let validTypes := ["stat", "inventory", "flag", "quest"]
    let validOperators := ["eq", "gt", "lt", "gte", "lte", "ne", "has", "not_has"]
    if !(validTypes.contains (c.type.getD "")) then false
    else if !(validOperators.contains (c.operator.getD "")) then false
    else if c.type == some "stat" && (c.operator == some "has" || c.operator == some "not_has") then
      false
    else true

/- ===================== quest-local validators ===================== -/

/-- Sum of declared outcome probabilities, with a missing or falsy
probability contributing 0 (outcome.probability or-else 0). -/
def outcomeProbTotal (outs : List OutcomeRec) : ℚ :=
  outs.foldl (fun s o => s + (o.probability.getD 0)) 0

/-- validateQuestStructure: blank title and description checks, the
at-least-one-outcome check, and the probability-sum warning. -/
def validateQuestStructure (q : QuestRec) : List VError :=
  (if blankOpt q.title then
    [{ type := .broken_chain, nodeId := some q.id, severity := .error }] else []) ++
  (if blankOpt q.description then
    [{ type := .broken_chain, nodeId := some q.id, severity := .error }] else []) ++
  (if q.outcomes.getD [] == [] then
    [{ type := .broken_chain, nodeId := some q.id, severity := .error }] else []) ++
  (if q.outcomes.getD [] != [] &&
      !(|outcomeProbTotal (q.outcomes.getD []) - 100| ≤ 1/100) then
    [{ type := .broken_chain, nodeId := some q.id, severity := .warning }] else [])

/-- validateQuestPrerequisites: every prerequisite record needs a
truthy id. -/
def validateQuestPrerequisites (q : QuestRec) : List VError :=
  (q.prerequisites.getD []).foldl (fun acc p =>
    acc ++ (if strFalsy p.id then
      [{ type := .missing_prerequisites, nodeId := some q.id, severity := .error }] else [])) []

/-- validateQuestOutcomes: every outcome needs a non-blank description
and, when present, a probability inside [0, 100]. -/
def validateQuestOutcomes (q : QuestRec) : List VError :=
  (q.outcomes.getD []).foldl (fun acc o =>
    acc ++
    (if blankOpt o.description then
      [{ type := .broken_chain, nodeId := some q.id, severity := .error }] else []) ++
    (if (match o.probability with
         | some p => decide (p < 0) || decide (p > 100)
         | none => false) then
      [{ type := .broken_chain, nodeId := some q.id, severity := .error }] else [])) []

/-- ValidationResult.summary. -/
structure VSummary where
  totalNodes : ℕ
  totalEdges : ℕ
  orphanNodes : ℕ
  unreachableNodes : ℕ
  brokenChains : ℕ
  circularDependencies : ℕ
  deriving DecidableEq

/-- ValidationResult. -/
structure VResult where
  isValid : Bool
  errors : List VError
  warnings : List VError
  exportReady : Bool
  summary : VSummary
  deriving DecidableEq

/-- validateQuest on a found quest record: the three quest-local
passes, partitioned by severity, with the fixed quest-local summary and
exportReady gate of the source. -/
def validateQuest (q : QuestRec) : VResult :=
  let questErrors := validateQuestStructure q
  let prerequisiteErrors := validateQuestPrerequisites q
  let outcomeErrors := validateQuestOutcomes q
  let errors :=
    questErrors.filter (fun e => e.severity == .error) ++
    prerequisiteErrors.filter (fun e => e.severity == .error) ++
    outcomeErrors.filter (fun e => e.severity == .error)
  let warnings :=
    questErrors.filter (fun e => e.severity == .warning) ++
    prerequisiteErrors.filter (fun e => e.severity == .warning) ++
    outcomeErrors.filter (fun e => e.severity == .warning)
  { isValid := errors.length == 0
    errors := errors
    warnings := warnings
    exportReady := errors.length == 0
    summary :=
      { totalNodes := 1
        totalEdges := (q.prerequisites.getD []).length + (q.outcomes.getD []).length
        orphanNodes := 0
        unreachableNodes := 0
        brokenChains := 0
        circularDependencies := 0 } }

/- ===================== graph builder ===================== -/

/-- Node kinds of the built graph. -/
inductive NodeType where
  | story_arc
  | quest
  | dialogue
  deriving DecidableEq

/-- The record a graph node carries in its data field. -/
inductive NodeData where
  | arc (a : StoryArcRec)
  | quest (q : QuestRec)
  | dlg (d : DialogueRec)
  deriving DecidableEq

/-- A node of the built graph; incoming and outgoing are the adjacency
lists populated by addEdgeToNodes (push order preserved). -/
structure GNode where
  id : String
  type : NodeType
  data : NodeData
  incoming : List String
  outgoing : List String
  deriving DecidableEq

/-- An edge of the built graph; type is the edge-kind string of the
source (belongs_to, prerequisite or outcome). -/
structure GEdge where
  id : String
  source : String
  target : String
  type : String
  deriving DecidableEq

/-- The graph representation: two insertion-ordered maps. -/
structure Graph where
  nodes : List (String × GNode)
  edges : List (String × GEdge)
  deriving DecidableEq

/-- addEdgeToNodes: push the target onto the outgoing list of the
source node and the source onto the incoming list of the target node,
whenever the respective node exists. -/
def addEdgeToNodes (nodes : List (String × GNode)) (sourceId targetId : String) :
    List (String × GNode) :=
  nodes.map (fun p =>
    let n := p.2
    let n := if p.1 == sourceId then { n with outgoing := n.outgoing ++ [targetId] } else n
    let n := if p.1 == targetId then { n with incoming := n.incoming ++ [sourceId] } else n
    (p.1, n))

/-- A declared prerequisite id as it is interpolated into an edge id
and passed to addEdgeToNodes (an absent id prints as undefined). -/
def prereqIdStr (p : PrereqRec) : String := p.id.getD "undefined"

/-- The edge-adding steps performed for one quest: the belongs_to edge
to its story arc (when truthy), one prerequisite edge per declared
prerequisite, and one outcome edge per outcome with a truthy
nextQuestId. -/
def addQuestEdges (g : Graph) (q : QuestRec) : Graph :=
  let g :=
    if !strFalsy q.storyArcId then
      let tgt := q.storyArcId.getD ""
      { nodes := addEdgeToNodes g.nodes q.id tgt
        edges := mapSet g.edges (q.id ++ "_to_" ++ tgt)
          { id := q.id ++ "_to_" ++ tgt, source := q.id, target := tgt, type := "belongs_to" } }
    else g
  let g := (q.prerequisites.getD []).foldl (fun g p =>
    let src := prereqIdStr p
    { nodes := addEdgeToNodes g.nodes src q.id
      edges := mapSet g.edges (src ++ "_to_" ++ q.id)
        { id := src ++ "_to_" ++ q.id, source := src, target := q.id, type := "prerequisite" } }) g
  (q.outcomes.getD []).foldl (fun g o =>
    if !strFalsy o.nextQuestId then
      let tgt := o.nextQuestId.getD ""
      { nodes := addEdgeToNodes g.nodes q.id tgt
        edges := mapSet g.edges (q.id ++ "_to_" ++ tgt)
          { id := q.id ++ "_to_" ++ tgt, source := q.id, target := tgt, type := "outcome" } }
    else g) g

/-- The edge-adding step performed for one dialogue: a belongs_to edge
to its quest when the quest id is truthy. -/
def addDialogueEdges (g : Graph) (d : DialogueRec) : Graph :=
  if !strFalsy d.questId then
    let tgt := d.questId.getD ""
    { nodes := addEdgeToNodes g.nodes d.id tgt
      edges := mapSet g.edges (d.id ++ "_to_" ++ tgt)
        { id := d.id ++ "_to_" ++ tgt, source := d.id, target := tgt, type := "belongs_to" } }
  else g

/-- buildGraph: nodes for story arcs, quests and dialogues in that
order, then edges derived from quest and dialogue relationships. -/
def buildGraph (storyArcs : List StoryArcRec) (quests : List QuestRec)
    (dialogues : List DialogueRec) : Graph :=
  let nodes := storyArcs.foldl (fun m a =>
    mapSet m a.id
      { id := a.id, type := .story_arc, data := .arc a, incoming := [], outgoing := [] }) []
  let nodes := quests.foldl (fun m q =>
    mapSet m q.id
      { id := q.id, type := .quest, data := .quest q, incoming := [], outgoing := [] }) nodes
  let nodes := dialogues.foldl (fun m d =>
    mapSet m d.id
      { id := d.id, type := .dialogue, data := .dlg d, incoming := [], outgoing := [] }) nodes
  let g : Graph := { nodes := nodes, edges := [] }
  let g := quests.foldl addQuestEdges g
  dialogues.foldl addDialogueEdges g

/- ===================== simple validation passes ===================== -/

/-- detectOrphanNodes: a warning for every node with empty incoming and
empty outgoing lists. -/
def detectOrphanNodes (g : Graph) : List VError :=
  g.nodes.foldl (fun acc p =>
    if p.2.incoming == [] && p.2.outgoing == [] then
      acc ++ [{ type := .orphan, nodeId := some p.1, severity := .warning }]
    else acc) []

/-- The outgoing adjacency of a node id (empty for a missing node). -/
def outgoingOf (g : Graph) (k : String) : List String :=
  match mapGet g.nodes k with
  | some n => n.outgoing
  | none => []

/-- All ids the two recursive traversals can ever be called on: the map
keys plus every outgoing target.  Used only to size the recursion fuel
of the embedded recursions, which the source runs unboundedly. -/
def uni (g : Graph) : List String :=
  (g.nodes.map (fun p => p.1) ++ g.nodes.flatMap (fun p => p.2.outgoing)).dedup

/-- The recursive dfs of detectUnreachableNodes: skip a visited id,
otherwise mark it and visit its outgoing list in order (the sequential
forEach of the source is a fold of the recursive call over the
successors).  The source recursion is unbounded; the fuel argument is
an embedding artifact and every call below supplies more fuel than the
recursion depth can reach. -/
def reachVisit (g : Graph) : ℕ → String → List String → List String
  | 0, _, vis => vis
  | f + 1, n, vis =>
    if vis.contains n then vis
    else (outgoingOf g n).foldl (fun v m => reachVisit g f m v) (n :: vis)

/-- detectUnreachableNodes: dfs from every story arc with an empty
incoming list, then an error for every node left unvisited. -/
def detectUnreachableNodes (g : Graph) : List VError :=
  let fuel := (uni g).length + 1
  let startNodes := (g.nodes.map (fun p => p.2)).filter
    (fun n => n.type == .story_arc && n.incoming == [])
  let visited := startNodes.foldl (fun vis n => reachVisit g fuel n.id vis) []
  g.nodes.foldl (fun acc p =>
    if !(visited.contains p.1) then
      acc ++ [{ type := .unreachable, nodeId := some p.1, severity := .error }]
    else acc) []

/-- detectBrokenChains: an error for every quest node whose incoming
adjacency list is empty while its quest record declares at least one
prerequisite. -/
def detectBrokenChains (g : Graph) : List VError :=
  g.nodes.foldl (fun acc p =>
    if p.2.type == .quest && p.2.incoming == [] then
      match p.2.data with
      | .quest q =>
        if q.prerequisites.getD [] != [] then
          acc ++ [{ type := .broken_chain, nodeId := some p.1, severity := .error }]
        else acc
      | _ => acc
    else acc) []

/-- validatePrerequisites: an error for every declared prerequisite
whose id is not a key of the node map. -/
def validatePrerequisites (g : Graph) : List VError :=
  g.nodes.foldl (fun acc p =>
    if p.2.type == .quest then
      match p.2.data with
      | .quest q =>
        (q.prerequisites.getD []).foldl (fun acc pr =>
          if (mapGet g.nodes (pr.id.getD "undefined")).isNone then
            acc ++ [{ type := .missing_prerequisites, nodeId := some p.1, severity := .error }]
          else acc) acc
      | _ => acc
    else acc) []

/-- The condition records of a quest in validation order: prerequisite
conditions first, then outcome conditions. -/
def questConditions (q : QuestRec) : List Condition :=
  (q.prerequisites.getD []).flatMap (fun pr => pr.conditions.getD []) ++
  (q.outcomes.getD []).flatMap (fun o => o.conditions.getD [])

/-- validateConditions: an error for every condition of a quest node
that fails isValidCondition. -/
def validateConditions (g : Graph) : List VError :=
  g.nodes.foldl (fun acc p =>
    if p.2.type == .quest then
      match p.2.data with
      | .quest q =>
        (questConditions q).foldl (fun acc c =>
          if !isValidCondition c then
            acc ++ [{ type := .invalid_condition, nodeId := some p.1, severity := .error }]
          else acc) acc
      | _ => acc
    else acc) []

/- ===================== circular-dependency pass ===================== -/

/-- The visited and recursionStack sets of detectCircularDependencies,
shared by all hasCycle calls of one pass. -/
structure DfsSt where
  visited : List String
  stack : List String
  deriving DecidableEq

/-- hasCycle from detectCircularDependencies: a hit on the recursion
stack reports a cycle, a visited node reports none, otherwise the node
is marked and pushed, its successors are explored in order with early
exit on a positive answer (the for-of loop of the source is a fold
that keeps its accumulator once a cycle is found), and on a negative
answer the node is popped again (on a positive answer the source
returns early and leaves the stack as is).  The fuel argument is an
embedding artifact; every call below supplies more fuel than the
recursion depth can reach. -/
def dfsVisit (g : Graph) : ℕ → String → DfsSt → Bool × DfsSt
  | 0, _, st => (false, st)
  | f + 1, n, st =>
    if st.stack.contains n then (true, st)
    else if st.visited.contains n then (false, st)
    else
      let r := (outgoingOf g n).foldl
        (fun acc m => if acc.1 then acc else dfsVisit g f m acc.2)
        (false, ⟨n :: st.visited, n :: st.stack⟩)
      if r.1 then (true, r.2) else (false, ⟨r.2.visited, r.2.stack.erase n⟩)

/-- The explicit sequential view of the successor exploration inside
dfsVisit: hasCycle on each successor in order, stopping at the first
positive answer.  Provably equal to the fold in dfsVisit. -/
def dfsSucc (g : Graph) (f : ℕ) : List String → DfsSt → Bool × DfsSt
  | [], st => (false, st)
  | m :: ms, st =>
    match dfsVisit g f m st with
    | (true, st2) => (true, st2)
    | (false, st2) => dfsSucc g f ms st2

/-- detectCircularDependencies: iterate the node map, run hasCycle on
every still-unvisited id, and push an error naming the start id on a
positive answer. -/
def detectCircularDependencies (g : Graph) : List VError :=
  let fuel := (uni g).length + 1
  (g.nodes.foldl (fun (acc : List VError × DfsSt) p =>
    if acc.2.visited.contains p.1 then acc
    else
      match dfsVisit g fuel p.1 acc.2 with
      | (true, st') =>
        (acc.1 ++ [{ type := .circular_dependency, nodeId := some p.1, severity := .error }], st')
      | (false, st') => (acc.1, st')) ([], ⟨[], []⟩)).1

/- ===================== whole-graph validation ===================== -/

/-- generateSummary: node and edge totals plus per-category counts
taken from the errors list alone. -/
def generateSummary (g : Graph) (errors : List VError) (_warnings : List VError) : VSummary :=
  { totalNodes := g.nodes.length
    totalEdges := g.edges.length
    orphanNodes := (errors.filter (fun e => e.type == .orphan)).length
    unreachableNodes := (errors.filter (fun e => e.type == .unreachable)).length
    brokenChains := (errors.filter (fun e => e.type == .broken_chain)).length
    circularDependencies := (errors.filter (fun e => e.type == .circular_dependency)).length }

/-- validateStoryGraph on the fetched records: build the graph, run the
six passes, partition their findings by severity in pass order, and
assemble the result with the documented exportReady gate. -/
def validateStoryGraph (storyArcs : List StoryArcRec) (quests : List QuestRec)
    (dialogues : List DialogueRec) : VResult :=
  let graph := buildGraph storyArcs quests dialogues
  let orphanErrors := detectOrphanNodes graph
  let unreachableErrors := detectUnreachableNodes graph
  let brokenChainErrors := detectBrokenChains graph
  let circularErrors := detectCircularDependencies graph
  let prerequisiteErrors := validatePrerequisites graph
  let conditionErrors := validateConditions graph
  let isErr := fun (e : VError) => e.severity == Severity.error
  let isWarn := fun (e : VError) => e.severity == Severity.warning
  let errors :=
    orphanErrors.filter isErr ++ unreachableErrors.filter isErr ++
    brokenChainErrors.filter isErr ++ circularErrors.filter isErr ++
    prerequisiteErrors.filter isErr ++ conditionErrors.filter isErr
  let warnings :=
    orphanErrors.filter isWarn ++ unreachableErrors.filter isWarn ++
    brokenChainErrors.filter isWarn ++ circularErrors.filter isWarn ++
    prerequisiteErrors.filter isWarn ++ conditionErrors.filter isWarn
  { isValid := errors.length == 0
    errors := errors
    warnings := warnings
    exportReady := errors.length == 0 && warnings.length < 5
    summary := generateSummary graph errors warnings }

/- ===================== Simulation: data model ===================== -/

/-- The stats object of a PlayerState.  Fields are Option because a
caller-supplied override replaces the whole object and may omit
individual fields; none stands for the JS undefined (and for the NaN
such an undefined produces under arithmetic). -/
structure StatsObj where
  health : Option ℚ
  mana : Option ℚ
  experience : Option ℚ
  level : Option ℚ
  gold : Option ℚ
  deriving DecidableEq

/-- The alignment object of a PlayerState (same Option convention). -/
structure AlignObj where
  good : Option ℚ
  neutral : Option ℚ
  evil : Option ℚ
  deriving DecidableEq

/-- Quest-progress status strings. -/
inductive QStatus where
  | not_started
  | in_progress
  | completed
  | failed
  deriving DecidableEq

/-- One quest_progress entry. -/
structure QuestProgress where
  status : QStatus
  progress : ℚ
  objectives : List (String × Bool)
  deriving DecidableEq

/-- PlayerState as the simulation service holds it. -/
structure PlayerState where
  stats : StatsObj
  reputation : List (String × ℚ)
  alignment : AlignObj
  inventory : List String
  flags : List (String × Bool)
  quest_progress : List (String × QuestProgress)
  current_location : String
  current_quest : Option String
  current_dialogue : Option String
  deriving DecidableEq

/-- A caller-supplied Partial PlayerState: every top-level field may be
present or absent; a present field carries a whole replacement object. -/
structure PlayerStateOverride where
  stats : Option StatsObj := none
  reputation : Option (List (String × ℚ)) := none
  alignment : Option AlignObj := none
  inventory : Option (List String) := none
  flags : Option (List (String × Bool)) := none
  quest_progress : Option (List (String × QuestProgress)) := none
  current_location : Option String := none
  current_quest : Option String := none
  current_dialogue : Option String := none
  deriving DecidableEq

/-- The default PlayerState of initializePlayerState. -/
def defaultPlayerState : PlayerState :=
  { stats :=
      { health := some 100, mana := some 100, experience := some 0
        level := some 1, gold := some 50 }
    reputation := [("neutral", 0), ("townsfolk", 0), ("merchants", 0), ("guards", 0)]
    alignment := { good := some 0, neutral := some 50, evil := some 0 }
    inventory := []
    flags := []
    quest_progress := []
    current_location := "town_square"
    current_quest := none
    current_dialogue := none }

/-- initializePlayerState: the spread of the default state and the
supplied Partial state merges at the top level only — a present field
of the override replaces the whole default object for that field. -/
def initPlayerState (overrideState : Option PlayerStateOverride) : PlayerState :=
  match overrideState with
  | none => defaultPlayerState
  | some p =>
    { stats := p.stats.getD defaultPlayerState.stats
      reputation := p.reputation.getD defaultPlayerState.reputation
      alignment := p.alignment.getD defaultPlayerState.alignment
      inventory := p.inventory.getD defaultPlayerState.inventory
      flags := p.flags.getD defaultPlayerState.flags
      quest_progress := p.quest_progress.getD defaultPlayerState.quest_progress
      current_location := p.current_location.getD defaultPlayerState.current_location
      current_quest := p.current_quest
      current_dialogue := p.current_dialogue }

/-- A prerequisite record as the simulation service reads it. -/
structure SimPrereq where
  type : Option String
  target : String
  value : JVal
  deriving DecidableEq

/-- A quest record with the fields the simulation service uses. -/
structure SimQuest where
  id : String
  title : String
  description : String
  type : Option String
  difficulty : Option ℚ
  estimated_duration : Option ℚ
  prerequisites : Option (List SimPrereq)
  deriving DecidableEq

/-- A character record with the fields the simulation service uses. -/
structure CharacterRec where
  name : String
  faction : Option String
  personality_traits : Option (List String)
  deriving DecidableEq

/-- SimulationRequest. -/
structure SimulationRequest where
  project_id : String
  story_arc_id : String
  initial_state : Option PlayerStateOverride := none
  player_name : Option String := none
  difficulty : Option String := none
  play_style : Option String := none
  max_duration : Option ℚ := none
  random_seed : Option ℚ := none
  deriving DecidableEq

/-- SimulationEvent.type. -/
inductive EvType where
  | quest_start
  | quest_complete
  | dialogue
  | stat_change
  | reputation_change
  | alignment_change
  | item_gain
  | item_loss
  | flag_set
  | location_change
  deriving DecidableEq

/-- SimulationEvent.severity. -/
inductive EvSeverity where
  | info
  | warning
  | error
  | success
  deriving DecidableEq

/-- A simulation event; the id string and the data payload are
presentation-only and not embedded. -/
structure SimEvent where
  timestamp : ℚ
  type : EvType
  description : String
  severity : EvSeverity
  deriving DecidableEq

/-- addEvent: append with a synthetic timestamp of 30 seconds per
already-recorded event. -/
def addEvent (events : List SimEvent) (type : EvType) (description : String)
    (severity : EvSeverity) : List SimEvent :=
  events ++ [{ timestamp := events.length * 30, type := type
               description := description, severity := severity }]

/- ===================== JS number helpers ===================== -/

/-- Addition where either operand may be undefined / NaN. -/
def jsAdd : Option ℚ → Option ℚ → Option ℚ
  | some a, some b => some (a + b)
  | _, _ => none

/-- Strict greater-than against a constant; comparisons involving
undefined / NaN are false. -/
def jsGtC (a : Option ℚ) (c : ℚ) : Bool :=
  match a with
  | some q => decide (q > c)
  | none => false

/-- Multiplication by a constant. -/
def jsMulC (a : Option ℚ) (c : ℚ) : Option ℚ := a.map (fun q => q * c)

/-- The numeric >= comparison of prerequisite checks; the records store
numbers, so only number-to-number comparisons are modelled (any other
shape compares false, as NaN does). -/
def jsGeVal (a : Option ℚ) (v : JVal) : Bool :=
  match a, v with
  | some q, .num x => decide (q ≥ x)
  | _, _ => false

/-- Dynamic property read state.stats[target]. -/
def statGet (s : StatsObj) (target : String) : Option ℚ :=
  if target == "health" then s.health
  else if target == "mana" then s.mana
  else if target == "experience" then s.experience
  else if target == "level" then s.level
  else if target == "gold" then s.gold
  else none

/-- One Math.random draw from the modelled stream. -/
def rngNext (rng : List ℚ) : ℚ × List ℚ := (rng.headD 0, rng.tail)

/-- JS array indexing that yields undefined out of bounds. -/
def jsIndex {α : Type} (l : List α) (i : ℤ) : Option α :=
  if i < 0 then none else l.get? i.toNat

/-- Case-insensitive-ready character-list containment used to model
String.prototype.includes. -/
def startsWithL : List Char → List Char → Bool
  | _, [] => true
  | [], _ :: _ => false
  | a :: as, b :: bs => a == b && startsWithL as bs

/-- Substring containment on character lists. -/
def hasSubL : List Char → List Char → Bool
  | s, t => startsWithL s t ||
    (match s with
     | [] => false
     | _ :: rest => hasSubL rest t)

/-- s.includes(t) on strings. -/
def strHas (s t : String) : Bool := hasSubL s.toList t.toList

/- ===================== simulation functions ===================== -/

/-- One prerequisite check of findAvailableQuests, dispatching on the
prerequisite type string (unknown types pass). -/
def checkSimPrereq (state : PlayerState) (p : SimPrereq) : Bool :=
  if p.type == some "quest" then
    (mapGet state.quest_progress p.target).map (fun pr => pr.status) == some .completed
  else if p.type == some "stat" then
    jsGeVal (statGet state.stats p.target) p.value
  else if p.type == some "flag" then
    (match mapGet state.flags p.target, p.value with
     | some b, .jbool b2 => b == b2
     | _, _ => false)
  else if p.type == some "reputation" then
    jsGeVal (mapGet state.reputation p.target) p.value
  else true

/-- findAvailableQuests: not-yet-started quests whose declared
prerequisites all hold.  A quest without an initialized progress entry
is never produced by the loop below; the source would fault there, so
the embedding answers false. -/
def findAvailableQuests (quests : List SimQuest) (state : PlayerState) : List SimQuest :=
  quests.filter (fun q =>
    match mapGet state.quest_progress q.id with
    | none => false
    | some prog =>
      if prog.status != .not_started then false
      else if q.prerequisites.getD [] != [] then
        (q.prerequisites.getD []).all (checkSimPrereq state)
      else true)

/-- selectNextQuest: play-style preference with fallback to the first
available quest; the default branch draws one random index. -/
def selectNextQuest (availableQuests : List SimQuest) (playStyle : Option String)
    (rng : List ℚ) : Option SimQuest × List ℚ :=
  if availableQuests.length == 0 then (none, rng)
  else if playStyle == some "aggressive" then
    (((availableQuests.find? (fun q => q.type == some "combat")).orElse
      (fun _ => availableQuests.head?)), rng)
  else if playStyle == some "diplomatic" then
    (((availableQuests.find? (fun q => q.type == some "dialogue")).orElse
      (fun _ => availableQuests.head?)), rng)
  else if playStyle == some "exploration" then
    (((availableQuests.find? (fun q => q.type == some "exploration")).orElse
      (fun _ => availableQuests.head?)), rng)
  else
    let (r, rng') := rngNext rng
    (jsIndex availableQuests ⌊r * availableQuests.length⌋, rng')

/-- Rewards of a completed quest (the failed case is the empty object,
whose missing fields read as undefined). -/
structure QuestRewards where
  experience : Option ℚ := none
  gold : Option ℚ := none
  items : List String := []
  flags : List (String × Bool) := []
  deriving DecidableEq

/-- generateQuestRewards: difficulty-scaled base rewards plus
type-specific bonuses, only on completion. -/
def generateQuestRewards (quest : SimQuest) (completed : Bool) : QuestRewards :=
  if !completed then {} else
    let base : QuestRewards :=
      { experience := jsMulC quest.difficulty 10
        gold := jsMulC quest.difficulty 5
        items := []
        flags := [] }
    if quest.type == some "combat" then
      { base with experience := jsMulC base.experience (3/2), items := base.items ++ ["weapon_upgrade"] }
    else if quest.type == some "dialogue" then
      { base with gold := jsMulC base.gold (6/5), flags := mapSet base.flags "diplomatic_skill" true }
    else if quest.type == some "exploration" then
      { base with experience := jsMulC base.experience (13/10), items := base.items ++ ["map_fragment"] }
    else base

/-- generatePlayerChoices: type-specific choices gated by stats. -/
def generatePlayerChoices (quest : SimQuest) (state : PlayerState) : List String :=
  if quest.type == some "combat" then
    (if jsGtC state.stats.health 50 then ["fight"] else []) ++
    (if jsGtC state.stats.level 2 then ["defend"] else []) ++ ["flee"]
  else if quest.type == some "dialogue" then
    ["agree", "disagree"] ++ (if jsGtC state.stats.level 3 then ["negotiate"] else [])
  else if quest.type == some "exploration" then
    ["explore", "search"] ++ (if jsGtC state.stats.level 1 then ["investigate"] else [])
  else ["proceed"]

/-- The result record of simulateQuest. -/
structure QuestSimResult where
  completed : Bool
  duration : ℚ
  rewards : QuestRewards
  choices : List String
  deriving DecidableEq

/-- simulateQuest: a 0.7 base success rate with two +0.1 stat bonuses,
a single Bernoulli draw, the or-else-300 duration, rewards and
choices. -/
def simulateQuest (quest : SimQuest) (state : PlayerState) (rng : List ℚ) :
    QuestSimResult × List ℚ :=
  let baseSuccessRate : ℚ := 7/10
  let successRate := baseSuccessRate +
    (if quest.type == some "combat" && jsGtC state.stats.health 80 then 1/10 else 0) +
    (if quest.type == some "dialogue" && jsGtC state.stats.level 3 then 1/10 else 0)
  let (r, rng') := rngNext rng
  let completed := decide (r < successRate)
  let duration :=
    match quest.estimated_duration with
    | some d => if d != 0 then d else 300
    | none => 300
  ({ completed := completed
     duration := duration
     rewards := generateQuestRewards quest completed
     choices := generatePlayerChoices quest state }, rng')

/-- updateStateFromQuest: progress transition, reward application and
the level-up rule. -/
def updateStateFromQuest (state : PlayerState) (quest : SimQuest)
    (result : QuestSimResult) : PlayerState :=
  let state :=
    if result.completed then
      let doneProgress : QuestProgress := { status := .completed, progress := 100, objectives := [] }
      let state := { state with quest_progress := mapSet state.quest_progress quest.id doneProgress }
      let rw := result.rewards
      let state :=
        if rw.experience.getD 0 != 0 then
          { state with stats := { state.stats with experience := jsAdd state.stats.experience rw.experience } }
        else state
      let state :=
        if rw.gold.getD 0 != 0 then
          { state with stats := { state.stats with gold := jsAdd state.stats.gold rw.gold } }
        else state
      let state :=
        if rw.items != [] then { state with inventory := state.inventory ++ rw.items } else state
      { state with flags := rw.flags.foldl (fun fl p => mapSet fl p.1 p.2) state.flags }
    else
      let failProgress : QuestProgress := { status := .failed, progress := 0, objectives := [] }
      { state with quest_progress := mapSet state.quest_progress quest.id failProgress }
  let newLevel : Option ℤ := state.stats.experience.map (fun e => ⌊e / 100⌋ + 1)
  match newLevel, state.stats.level with
  | some nl, some lv =>
    if (nl : ℚ) > lv then
      { state with stats :=
        { state.stats with
          level := some (nl : ℚ)
          health := state.stats.health.map (fun h => min 100 (h + 10))
          mana := state.stats.mana.map (fun m => min 100 (m + 10)) } }
    else state
  | _, _ => state

/-- calculateReputationChanges: only on completion; characters whose
lower-cased name occurs in the lower-cased quest title or description
contribute a rounded, personality-scaled +5 to their faction. -/
def calculateReputationChanges (quest : SimQuest) (result : QuestSimResult)
    (characters : List CharacterRec) : List (String × ℚ) :=
  if !result.completed then []
  else
    let involved := characters.filter (fun ch =>
      strHas quest.title.toLower ch.name.toLower ||
      strHas quest.description.toLower ch.name.toLower)
    involved.foldl (fun changes ch =>
      let faction := if strFalsy ch.faction then "neutral" else ch.faction.getD ""
      let traits := ch.personality_traits.getD []
      let multiplier : ℚ :=
        if traits.contains "friendly" then 6/5
        else if traits.contains "hostile" then 4/5
        else 1
      mapSet changes faction ((jsRound (5 * multiplier) : ℤ) : ℚ)) []

/-- The alignment-delta record of calculateAlignmentChanges. -/
structure AlignChanges where
  good : ℚ
  neutral : ℚ
  evil : ℚ
  deriving DecidableEq

/-- calculateAlignmentChanges: only on completion; dispatch on quest
type and generated choices. -/
def calculateAlignmentChanges (quest : SimQuest) (result : QuestSimResult) : AlignChanges :=
  if !result.completed then { good := 0, neutral := 0, evil := 0 }
  else if quest.type == some "combat" then
    if result.choices.contains "defend" || result.choices.contains "protect" then
      { good := 5, neutral := 0, evil := 0 }
    else if result.choices.contains "attack" || result.choices.contains "kill" then
      { good := 0, neutral := 0, evil := 3 }
    else { good := 0, neutral := 0, evil := 0 }
  else if quest.type == some "dialogue" then
    { good := if result.choices.contains "help" || result.choices.contains "agree" then 3 else 0
      neutral := 2, evil := 0 }
  else if quest.type == some "exploration" then
    { good := 0, neutral := 1, evil := 0 }
  else { good := 0, neutral := 1, evil := 0 }

/-- applyReputationChanges: add each change onto the (or-else-0)
current value, then clamp that faction to [-100, 100].  Factions not
named in the change map are left untouched. -/
def applyReputationChanges (state : PlayerState) (changes : List (String × ℚ)) : PlayerState :=
  { state with reputation := changes.foldl (fun rep p =>
      let v := (mapGet rep p.1).getD 0 + p.2
      let rep := mapSet rep p.1 v
      mapSet rep p.1 (max (-100) (min 100 ((mapGet rep p.1).getD 0)))) state.reputation }

/-- applyAlignmentChanges: add the deltas onto the alignment fields,
then renormalize to a 100 total only when the post-addition total is
positive; the evil component absorbs the rounding remainder. -/
def applyAlignmentChanges (state : PlayerState) (changes : AlignChanges) : PlayerState :=
  let g1 := jsAdd state.alignment.good (some changes.good)
  let n1 := jsAdd state.alignment.neutral (some changes.neutral)
  let e1 := jsAdd state.alignment.evil (some changes.evil)
  match g1, n1, e1 with
  | some g, some n, some e =>
    let total := g + n + e
    if total > 0 then
      let g2 := ((jsRound (g / total * 100) : ℤ) : ℚ)
      let n2 := ((jsRound (n / total * 100) : ℤ) : ℚ)
      { state with alignment := { good := some g2, neutral := some n2, evil := some (100 - g2 - n2) } }
    else
      { state with alignment := { good := some g, neutral := some n, evil := some e } }
  | _, _, _ =>
    { state with alignment := { good := g1, neutral := n1, evil := e1 } }

/- ===================== runSimulation ===================== -/

/-- The embedded SimulationResult.  The duration (wall-clock seconds),
the echoed request metadata and the aggregate delta fields are
presentation; the initial_state snapshot the source returns is partly
mutated through object aliasing and no claim mentions it, so neither is
embedded. -/
structure SimResult where
  final_state : PlayerState
  events : List SimEvent
  completed_quests : List String
  failed_quests : List String
  deriving DecidableEq

/-- The state threaded through the main simulation loop. -/
structure LoopSt where
  state : PlayerState
  events : List SimEvent
  completed : List String
  failed : List String
  time : ℚ
  rng : List ℚ
  deriving DecidableEq

/-- One pass of the main loop body after a quest has been selected. -/
def simStep (characters : List CharacterRec)
    (ls : LoopSt) (q : SimQuest) (rng1 : List ℚ) : LoopSt :=
  let events1 := addEvent ls.events .quest_start ("Started quest: " ++ q.title) .info
  let state1 :=
    { ls.state with
      quest_progress :=
        (match mapGet ls.state.quest_progress q.id with
         | some pr => mapSet ls.state.quest_progress q.id { pr with status := .in_progress }
         | none => ls.state.quest_progress)
      current_quest := some q.id }
  let (qres, rng2) := simulateQuest q state1 rng1
  let state2 := updateStateFromQuest state1 q qres
  let completed1 := if qres.completed then ls.completed ++ [q.id] else ls.completed
  let failed1 := if qres.completed then ls.failed else ls.failed ++ [q.id]
  let events2 :=
    if qres.completed then
      addEvent events1 .quest_complete ("Completed quest: " ++ q.title) .success
    else
      addEvent events1 .quest_complete ("Failed quest: " ++ q.title) .error
  let repCh := calculateReputationChanges q qres characters
  let alCh := calculateAlignmentChanges q qres
  let state3 := applyReputationChanges state2 repCh
  let state4 := applyAlignmentChanges state3 alCh
  let events3 :=
    if repCh.length > 0 then addEvent events2 .reputation_change "Reputation changed" .info
    else events2
  let events4 :=
    if alCh.good != 0 || alCh.neutral != 0 || alCh.evil != 0 then
      addEvent events3 .alignment_change "Alignment changed" .info
    else events3
  { state := state4, events := events4, completed := completed1, failed := failed1
    time := ls.time + qres.duration, rng := rng2 }

/-- The main simulation loop.  Every iteration moves one quest out of
not_started for good, so the iteration count is bounded by the number
of quests; the fuel argument is an embedding artifact and the caller
supplies one more than that bound. -/
def simLoop (quests : List SimQuest) (characters : List CharacterRec)
    (playStyle : Option String) (budget : ℚ) : ℕ → LoopSt → LoopSt
  | 0, ls => ls
  | f + 1, ls =>
    if ls.time < budget then
      let avail := findAvailableQuests quests ls.state
      if avail.length == 0 then ls
      else
        let (sel, rng1) := selectNextQuest avail playStyle ls.rng
        match sel with
        | none => { ls with rng := rng1 }
        | some q => simLoop quests characters playStyle budget f (simStep characters ls q rng1)
    else ls

/-- runSimulation: initialize every quest to not_started, run the loop
under the or-else-60-minute budget, and package the result. -/
def runSimulation (initialState : PlayerState) (quests : List SimQuest)
    (characters : List CharacterRec) (request : SimulationRequest)
    (rng : List ℚ) : SimResult :=
  let notStarted : QuestProgress := { status := .not_started, progress := 0, objectives := [] }
  let state0 := { initialState with
    quest_progress := quests.foldl (fun qp q => mapSet qp q.id notStarted) initialState.quest_progress }
  let budget :=
    (match request.max_duration with
     | some d => if d != 0 then d else 60
     | none => 60) * 60
  let ls := simLoop quests characters request.play_style budget (quests.length + 1)
    { state := state0, events := [], completed := [], failed := [], time := 0, rng := rng }
  { final_state := ls.state
    events := ls.events
    completed_quests := ls.completed
    failed_quests := ls.failed }

/- ============ concrete records for witnesses and counterexamples ============ -/

/-- A stats object that omits its health field, used to witness C10. -/
def statsOvr10 : StatsObj :=
  { health := none, mana := some 5, experience := some 0, level := some 1, gold := some 0 }

/-- The override used to witness C10. -/
def ovr10 : PlayerStateOverride := { stats := some statsOvr10 }

/-- The single-arc record used to refute C9. -/
def arc9 : StoryArcRec := { id := "A9", title := "Arc" }

/-- The quest used to refute C6: a valid title and description but an
empty declared outcome list. -/
def q6 : QuestRec :=
  { id := "Q6", title := some "T", description := some "D", storyArcId := none
    prerequisites := none, outcomes := some [] }

/-- The number of failing conditions carried by one graph node (zero
for non-quest nodes). -/
def badCondCount (p : String × GNode) : ℕ :=
  if p.2.type == NodeType.quest then
    match p.2.data with
    | .quest q => (questConditions q).countP (fun c => !isValidCondition c)
    | _ => 0
  else 0

/-- The reputation-typed condition used to refute C5: all three fields
present, with an ordering operator. -/
def cRep : Condition :=
  { type := some "reputation", operator := some "gte", target := some "guards"
    value := some (.num 50) }

/-- The quest carrying cRep inside a prerequisite, used to refute C5. -/
def q5 : QuestRec :=
  { id := "Q5", title := some "T", description := some "D", storyArcId := none
    prerequisites := some [{ id := some "P", conditions := some [cRep] }], outcomes := none }

/-- The alignment override used to refute C7 (a caller may supply any
alignment object; this one sums to -10). -/
def ovr7 : PlayerStateOverride :=
  { alignment := some { good := some (-10), neutral := some 0, evil := some 0 } }

/-- The dialogue quest used to refute C7. -/
def q7 : SimQuest :=
  { id := "Q7", title := "Talk", description := "D", type := some "dialogue"
    difficulty := some 1, estimated_duration := some 5, prerequisites := none }

/-- The request used to refute C7. -/
def req7 : SimulationRequest :=
  { project_id := "p", story_arc_id := "s", initial_state := some ovr7, max_duration := some 1 }

/-- The reputation override used to refute C8 (one faction far outside
the documented range). -/
def ovr8 : PlayerStateOverride := { reputation := some [("cult", 500)] }

/-- The quest used to refute C8. -/
def q8 : SimQuest :=
  { id := "Q8", title := "T8", description := "D", type := none
    difficulty := some 1, estimated_duration := some 5, prerequisites := none }

/-- The request used to refute C8. -/
def req8 : SimulationRequest :=
  { project_id := "p", story_arc_id := "s", initial_state := some ovr8, max_duration := some 1 }

/-- The quest used for the C1 failing input. -/
def q1sim : SimQuest :=
  { id := "Q1", title := "First", description := "D", type := none
    difficulty := some 1, estimated_duration := some 5, prerequisites := none }

/-- The C1 failing input: a request with max_duration = 0. -/
def req1 : SimulationRequest :=
  { project_id := "p", story_arc_id := "s", max_duration := some 0 }

/-- The per-node update addEdgeToNodes performs, keyed by the entry
key. -/
def edgeUpd (sourceId targetId k : String) (n0 : GNode) : GNode :=
  let n := n0
  let n := if k == sourceId then { n with outgoing := n.outgoing ++ [targetId] } else n
  if k == targetId then { n with incoming := n.incoming ++ [sourceId] } else n

/-- The condition under which detectBrokenChains flags a node: a quest
node with an empty incoming adjacency list whose record declares at
least one prerequisite. -/
def brokenChainFlag (p : String × GNode) : Bool :=
  p.2.type == NodeType.quest && p.2.incoming == [] &&
    (match p.2.data with
     | .quest q => q.prerequisites.getD [] != []
     | _ => false)

/-- The incoming-list length of the node stored under a key (0 when
absent). -/
def incomingLen (m : List (String × GNode)) (k : String) : ℕ :=
  ((mapGet m k).map (fun n => n.incoming.length)).getD 0

/-- The outcome record wiring quest A to quest B, used to refute C4. -/
def oAB : OutcomeRec :=
  { description := some "d", probability := some 100, conditions := none, nextQuestId := some "B" }

/-- Quest B declares prerequisite A; used to refute C4. -/
def qB : QuestRec :=
  { id := "B", title := some "B", description := some "D", storyArcId := none
    prerequisites := some [{ id := some "A", conditions := none }], outcomes := none }

/-- Quest A with an outcome edge to B; used to refute C4.  Its outcome
edge shares the edge id A_to_B with the prerequisite edge of B and
overwrites it in the edge map. -/
def qA : QuestRec :=
  { id := "A", title := some "A", description := some "D", storyArcId := none
    prerequisites := none, outcomes := some [oAB] }

/- ============ cycle specification layer for the circular pass ============ -/

/-- One directed step of the adjacency detectCircularDependencies
walks: b is an outgoing successor of a. -/
def stepRel (g : Graph) (a b : String) : Prop := b ∈ outgoingOf g a

/-- The directed adjacency contains a cycle: some node reaches itself
in at least one step. -/
def GraphHasCycle (g : Graph) : Prop := ∃ n, Relation.TransGen (stepRel g) n n

/-- The recursion stack read as a path: each entry steps to the entry
pushed on top of it. -/
def StackChain (g : Graph) : List String → Prop
  | [] => True
  | [_] => True
  | b :: a :: rest => stepRel g a b ∧ StackChain g (a :: rest)

/-- A finish order: every successor of an element appears strictly
later in the list.  The dfs produces such an order for its black nodes,
which certifies acyclicity. -/
def SuccAfter (g : Graph) : List String → Prop
  | [] => True
  | x :: rest => (∀ m, m ∈ outgoingOf g x → m ∈ rest) ∧ SuccAfter g rest

/-- Index of the first occurrence of a name in a list. -/
def idxOf : List String → String → ℕ
  | [], _ => 0
  | x :: xs, a => if x = a then 0 else idxOf xs a + 1

/-- The number of relevant ids not yet visited; the dfs recursion depth
is bounded by it. -/
def muV (g : Graph) (vis : List String) : ℕ :=
  ((uni g).filter (fun x => !vis.contains x)).length

/-- The invariant the completeness argument threads through the dfs:
well-formed visited and stack lists plus a finish order for the black
nodes (visited and off-stack). -/
def Cinv (g : Graph) (st : DfsSt) : Prop :=
  st.visited.Nodup ∧ st.stack.Nodup ∧ (∀ x ∈ st.stack, x ∈ st.visited) ∧
  ∃ F : List String, F.Nodup ∧
    (∀ x, x ∈ F ↔ (x ∈ st.visited ∧ x ∉ st.stack)) ∧ SuccAfter g F

/-- The node-loop body of detectCircularDependencies, named so the
outer-loop invariant can speak about one iteration. -/
def circStep (g : Graph) (fuel : ℕ) (acc : List VError × DfsSt) (p : String × GNode) :
    List VError × DfsSt :=
  if acc.2.visited.contains p.1 then acc
  else
    match dfsVisit g fuel p.1 acc.2 with
    | (true, st') =>
      (acc.1 ++ [{ type := .circular_dependency, nodeId := some p.1, severity := .error }], st')
    | (false, st') => (acc.1, st')

/-- The invariant of the detectCircularDependencies node loop: any
error pushed so far certifies a cycle, and as long as none has been
pushed the recursion stack is empty and the dfs invariant holds. -/
def CircAcc (g : Graph) (acc : List VError × DfsSt) : Prop :=
  (acc.1 ≠ [] → GraphHasCycle g) ∧
  (acc.1 = [] → acc.2.stack = [] ∧ Cinv g acc.2)

/- ===================== generic list / map lemmas ===================== -/

/-- Unfold a foldl that only appends onto its accumulator. -/
theorem foldl_append_gen {α β : Type} (g : β → List α) :
    ∀ (l : List β) (init : List α),
      List.foldl (fun acc b => acc ++ g b) init l = init ++ l.flatMap g := by
  intro l
  induction l with
  | nil => intro init; simp
  | cons b bs ih => intro init; simp [List.foldl_cons, ih]

/-- Membership in a foldl whose step either keeps the accumulator or
appends elements satisfying an invariant. -/
theorem foldl_mem_invariant {α β : Type} (P : α → Prop) (f : List α → β → List α)
    (hf : ∀ acc b x, x ∈ f acc b → x ∈ acc ∨ P x) :
    ∀ (l : List β) (init : List α) (x), x ∈ List.foldl f init l → x ∈ init ∨ P x := by
  intro l
  induction l with
  | nil => intro init x hx; exact Or.inl hx
  | cons b bs ih =>
    intro init x hx
    rcases ih (f init b) x hx with h | h
    · exact hf init b x h
    · exact Or.inr h

theorem mapGet_cons {α : Type} (p : String × α) (ps : List (String × α)) (k : String) :
    mapGet (p :: ps) k = if p.1 == k then some p.2 else mapGet ps k := by
  cases h : p.1 == k <;> simp [mapGet, List.find?, h]

theorem mapGet_map_replace {α : Type} (k : String) (v : α) :
    ∀ (m : List (String × α)), m.any (fun p => p.1 == k) = true →
      mapGet (m.map (fun p => if p.1 == k then (k, v) else p)) k = some v := by
  intro m
  induction m with
  | nil => intro h; simp at h
  | cons p ps ih =>
    intro h
    cases hpk : p.1 == k with
    | true =>
      simp only [List.map_cons, hpk, if_true]
      rw [mapGet_cons]
      simp
    | false =>
      simp only [List.any_cons, hpk, Bool.false_or] at h
      simp only [List.map_cons, hpk, if_false]
      rw [mapGet_cons, if_neg (by simp [hpk])]
      exact ih h

theorem mapGet_append_last {α : Type} (k : String) (v : α) :
    ∀ (m : List (String × α)), m.any (fun p => p.1 == k) = false →
      mapGet (m ++ [(k, v)]) k = some v := by
  intro m
  induction m with
  | nil => simp [mapGet, List.find?]
  | cons p ps ih =>
    intro h
    simp only [List.any_cons, Bool.or_eq_false_iff] at h
    simp only [List.cons_append]
    rw [mapGet_cons, if_neg (by simp [h.1])]
    exact ih h.2

theorem mapGet_mapSet_self {α : Type} (m : List (String × α)) (k : String) (v : α) :
    mapGet (mapSet m k v) k = some v := by
  unfold mapSet
  cases h : m.any (fun p => p.1 == k) with
  | true => simpa [h] using mapGet_map_replace k v m h
  | false => simpa [h] using mapGet_append_last k v m h

theorem mapGet_map_replace_ne {α : Type} (k k2 : String) (v : α) (hne : k2 ≠ k) :
    ∀ (m : List (String × α)),
      mapGet (m.map (fun p => if p.1 == k then (k, v) else p)) k2 = mapGet m k2 := by
  have hkk2 : (k == k2) = false := by
    cases h : k == k2
    · rfl
    · exact absurd (beq_iff_eq.mp h).symm hne
  intro m
  induction m with
  | nil => simp
  | cons p ps ih =>
    cases hpk : p.1 == k with
    | true =>
      have hp1 : p.1 = k := beq_iff_eq.mp hpk
      have hpk2 : (p.1 == k2) = false := by rw [hp1]; exact hkk2
      simp only [List.map_cons, hpk, if_true]
      rw [mapGet_cons, mapGet_cons, if_neg (by simp [hkk2]), if_neg (by simp [hpk2])]
      exact ih
    | false =>
      simp only [List.map_cons, hpk, if_false]
      rw [mapGet_cons, mapGet_cons]
      cases hpk2 : p.1 == k2 with
      | true => simp [hpk2]
      | false => rw [if_neg (by simp [hpk2]), if_neg (by simp [hpk2])]; exact ih

theorem mapGet_append_ne {α : Type} (k k2 : String) (v : α) (hne : k2 ≠ k) :
    ∀ (m : List (String × α)), mapGet (m ++ [(k, v)]) k2 = mapGet m k2 := by
  have hkk2 : (k == k2) = false := by
    cases h : k == k2
    · rfl
    · exact absurd (beq_iff_eq.mp h).symm hne
  intro m
  induction m with
  | nil => simp [mapGet, List.find?, hkk2]
  | cons p ps ih =>
    simp only [List.cons_append]
    rw [mapGet_cons, mapGet_cons]
    cases hpk2 : p.1 == k2 with
    | true => simp [hpk2]
    | false => rw [if_neg (by simp [hpk2]), if_neg (by simp [hpk2])]; exact ih

theorem mapGet_mapSet_ne {α : Type} (m : List (String × α)) (k k2 : String) (v : α)
    (hne : k2 ≠ k) : mapGet (mapSet m k v) k2 = mapGet m k2 := by
  unfold mapSet
  cases h : m.any (fun p => p.1 == k) with
  | true => simpa [h] using mapGet_map_replace_ne k k2 v hne m
  | false => simpa [h] using mapGet_append_ne k k2 v hne m

/- ===================== C10 ===================== -/

/-- C10: initializePlayerState merges caller-supplied overrides only at
the top level: a present stats (or reputation, alignment, flags) object
replaces the whole corresponding default object — so a subfield omitted
from the supplied object stays absent instead of inheriting the default
— while top-level fields absent from the override keep their defaults. -/
theorem c10_top_level_merge (p : PlayerStateOverride) :
    (∀ s : StatsObj, p.stats = some s → (initPlayerState (some p)).stats = s) ∧
    (p.stats = none → (initPlayerState (some p)).stats = defaultPlayerState.stats) ∧
    (∀ rep, p.reputation = some rep → (initPlayerState (some p)).reputation = rep) ∧
    (p.reputation = none → (initPlayerState (some p)).reputation = defaultPlayerState.reputation) ∧
    (∀ a, p.alignment = some a → (initPlayerState (some p)).alignment = a) ∧
    (p.alignment = none → (initPlayerState (some p)).alignment = defaultPlayerState.alignment) ∧
    (∀ fl, p.flags = some fl → (initPlayerState (some p)).flags = fl) ∧
    (p.flags = none → (initPlayerState (some p)).flags = defaultPlayerState.flags) := by
  refine ⟨fun s hs => ?_, fun hs => ?_, fun rep hr => ?_, fun hr => ?_,
    fun a ha => ?_, fun ha => ?_, fun fl hf => ?_, fun hf => ?_⟩ <;>
    simp [initPlayerState, *]

/-- Witness for C10: with a supplied stats object omitting health, the
resulting health is absent (not the default 100), while the untouched
reputation keeps its default. -/
theorem c10_top_level_merge_witness :
    (initPlayerState (some ovr10)).stats.health = none ∧
    (initPlayerState (some ovr10)).reputation = defaultPlayerState.reputation := by
  obtain ⟨h1, _, _, h4, _, _, _, _⟩ := c10_top_level_merge ovr10
  constructor
  · rw [h1 statsOvr10 rfl]; rfl
  · exact h4 rfl

/- ===================== C2 ===================== -/

@[simp] theorem sevBeq_error_warning : (Severity.error == Severity.warning) = false := rfl

@[simp] theorem sevBeq_warning_warning : (Severity.warning == Severity.warning) = true := rfl

@[simp] theorem sevBeq_error_error : (Severity.error == Severity.error) = true := rfl

@[simp] theorem sevBeq_warning_error : (Severity.warning == Severity.error) = false := rfl

theorem mem_validateQuestPrerequisites_severity (q : QuestRec) (x : VError)
    (hx : x ∈ validateQuestPrerequisites q) : x.severity = .error := by
  unfold validateQuestPrerequisites at hx
  have h := foldl_mem_invariant (fun e => e.severity = Severity.error)
    (fun acc p => acc ++ (if strFalsy p.id then
      [{ type := .missing_prerequisites, nodeId := some q.id, severity := .error }] else []))
    (by
      intro acc b y hy
      rcases List.mem_append.mp hy with h | h
      · exact Or.inl h
      · right
        split at h
        · rcases List.mem_singleton.mp h with rfl; rfl
        · simp at h)
    (q.prerequisites.getD []) [] x hx
  rcases h with h | h
  · simp at h
  · exact h

theorem mem_validateQuestOutcomes_severity (q : QuestRec) (x : VError)
    (hx : x ∈ validateQuestOutcomes q) : x.severity = .error := by
  unfold validateQuestOutcomes at hx
  have h := foldl_mem_invariant (fun e => e.severity = Severity.error)
    (fun acc o => acc ++
      (if blankOpt o.description then
        [{ type := .broken_chain, nodeId := some q.id, severity := .error }] else []) ++
      (if (match o.probability with
           | some p => decide (p < 0) || decide (p > 100)
           | none => false) then
        [{ type := .broken_chain, nodeId := some q.id, severity := .error }] else []))
    (by
      intro acc b y hy
      rcases List.mem_append.mp hy with h | h
      · rcases List.mem_append.mp h with h | h
        · exact Or.inl h
        · right
          split at h
          · rcases List.mem_singleton.mp h with rfl; rfl
          · simp at h
      · right
        split at h
        · rcases List.mem_singleton.mp h with rfl; rfl
        · simp at h)
    (q.outcomes.getD []) [] x hx
  rcases h with h | h
  · simp at h
  · exact h

/-- The warning-severity findings of the quest-structure pass are
exactly the probability-sum warning. -/
theorem validateQuestStructure_warnings (q : QuestRec) :
    (validateQuestStructure q).filter (fun e => e.severity == Severity.warning) =
      (if q.outcomes.getD [] != [] &&
          !(|outcomeProbTotal (q.outcomes.getD []) - 100| ≤ 1/100) then
        [{ type := .broken_chain, nodeId := some q.id, severity := .warning }] else []) := by
  unfold validateQuestStructure
  split_ifs <;> simp_all [List.filter_append, List.filter]

theorem validateQuest_warnings (q : QuestRec) :
    (validateQuest q).warnings =
      (if q.outcomes.getD [] != [] &&
          !(|outcomeProbTotal (q.outcomes.getD []) - 100| ≤ 1/100) then
        [{ type := .broken_chain, nodeId := some q.id, severity := .warning }] else []) := by
  show (validateQuestStructure q).filter (fun e => e.severity == Severity.warning) ++
      (validateQuestPrerequisites q).filter (fun e => e.severity == Severity.warning) ++
      (validateQuestOutcomes q).filter (fun e => e.severity == Severity.warning) = _
  have hp : (validateQuestPrerequisites q).filter (fun e => e.severity == Severity.warning) = [] := by
    rw [List.filter_eq_nil_iff]
    intro a ha
    simp [mem_validateQuestPrerequisites_severity q a ha]
  have ho : (validateQuestOutcomes q).filter (fun e => e.severity == Severity.warning) = [] := by
    rw [List.filter_eq_nil_iff]
    intro a ha
    simp [mem_validateQuestOutcomes_severity q a ha]
  rw [hp, ho, List.append_nil, List.append_nil, validateQuestStructure_warnings]

/-- C2: for the results of both whole-graph and quest-local validation,
exportReady holds exactly when the errors list is empty and fewer than
five warnings were produced.  (The quest-local source computes only the
error check, but it can produce at most one warning, so the gates
coincide on every result it returns.) -/
theorem c2_export_ready_gate :
    (∀ arcs quests dialogues,
      ((validateStoryGraph arcs quests dialogues).exportReady = true ↔
        ((validateStoryGraph arcs quests dialogues).errors = [] ∧
         (validateStoryGraph arcs quests dialogues).warnings.length < 5))) ∧
    (∀ q : QuestRec,
      ((validateQuest q).exportReady = true ↔
        ((validateQuest q).errors = [] ∧ (validateQuest q).warnings.length < 5))) := by
  constructor
  · intro arcs quests dialogues
    show ((validateStoryGraph arcs quests dialogues).errors.length == 0 &&
      decide ((validateStoryGraph arcs quests dialogues).warnings.length < 5)) = true ↔ _
    simp [List.length_eq_zero]
  · intro q
    have hw : (validateQuest q).warnings.length < 5 := by
      rw [validateQuest_warnings]
      split_ifs <;> simp
    show ((validateQuest q).errors.length == 0) = true ↔ _
    simp [List.length_eq_zero, hw]

/- ===================== dfs bridging lemmas ===================== -/

theorem foldl_dfs_true (g : Graph) (f : ℕ) :
    ∀ (ms : List String) (st : DfsSt),
      List.foldl (fun acc m => if acc.1 then acc else dfsVisit g f m acc.2) (true, st) ms
        = (true, st) := by
  intro ms
  induction ms with
  | nil => intro st; rfl
  | cons m ms ih => intro st; simpa using ih st

theorem foldl_dfs_eq_dfsSucc (g : Graph) (f : ℕ) :
    ∀ (ms : List String) (st : DfsSt),
      List.foldl (fun acc m => if acc.1 then acc else dfsVisit g f m acc.2) (false, st) ms
        = dfsSucc g f ms st := by
  intro ms
  induction ms with
  | nil => intro st; rfl
  | cons m ms ih =>
    intro st
    simp only [List.foldl_cons, dfsSucc]
    rcases h : dfsVisit g f m st with ⟨b, st2⟩
    cases b with
    | true => simpa [h] using foldl_dfs_true g f ms st2
    | false => simpa [h] using ih st2

/-- The push branch of dfsVisit in its sequential view. -/
theorem dfsVisit_push (g : Graph) (f : ℕ) (n : String) (st : DfsSt)
    (h1 : st.stack.contains n = false) (h2 : st.visited.contains n = false) :
    dfsVisit g (f + 1) n st =
      (match dfsSucc g f (outgoingOf g n) ⟨n :: st.visited, n :: st.stack⟩ with
       | (true, st2) => (true, st2)
       | (false, st2) => (false, ⟨st2.visited, st2.stack.erase n⟩)) := by
  rw [dfsVisit]
  simp only [h1, h2, Bool.false_eq_true, if_false]
  rw [foldl_dfs_eq_dfsSucc]
  rcases h : dfsSucc g f (outgoingOf g n) ⟨n :: st.visited, n :: st.stack⟩ with ⟨b, st2⟩
  cases b <;> simp

/- ===================== pass shape lemmas ===================== -/

theorem mem_detectOrphanNodes (g : Graph) (x : VError) (hx : x ∈ detectOrphanNodes g) :
    x.type = .orphan ∧ x.severity = .warning := by
  unfold detectOrphanNodes at hx
  have h := foldl_mem_invariant (fun e => e.type = ErrType.orphan ∧ e.severity = Severity.warning)
    _ (by
      intro acc b y hy
      split at hy
      · rcases List.mem_append.mp hy with h | h
        · exact Or.inl h
        · rcases List.mem_singleton.mp h with rfl; exact Or.inr ⟨rfl, rfl⟩
      · exact Or.inl hy)
    _ _ x hx
  rcases h with h | h
  · simp at h
  · exact h

theorem mem_detectUnreachableNodes (g : Graph) (x : VError)
    (hx : x ∈ detectUnreachableNodes g) :
    x.type = .unreachable ∧ x.severity = .error := by
  unfold detectUnreachableNodes at hx
  have h := foldl_mem_invariant
    (fun e => e.type = ErrType.unreachable ∧ e.severity = Severity.error)
    _ (by
      intro acc b y hy
      split at hy
      · rcases List.mem_append.mp hy with h | h
        · exact Or.inl h
        · rcases List.mem_singleton.mp h with rfl; exact Or.inr ⟨rfl, rfl⟩
      · exact Or.inl hy)
    _ _ x hx
  rcases h with h | h
  · simp at h
  · exact h

theorem mem_detectBrokenChains (g : Graph) (x : VError) (hx : x ∈ detectBrokenChains g) :
    x.type = .broken_chain ∧ x.severity = .error := by
  unfold detectBrokenChains at hx
  have h := foldl_mem_invariant
    (fun e => e.type = ErrType.broken_chain ∧ e.severity = Severity.error)
    _ (by
      intro acc b y hy
      split at hy
      · split at hy
        · split at hy
          · rcases List.mem_append.mp hy with h | h
            · exact Or.inl h
            · rcases List.mem_singleton.mp h with rfl; exact Or.inr ⟨rfl, rfl⟩
          · exact Or.inl hy
        · exact Or.inl hy
      · exact Or.inl hy)
    _ _ x hx
  rcases h with h | h
  · simp at h
  · exact h

theorem mem_validatePrerequisites (g : Graph) (x : VError) (hx : x ∈ validatePrerequisites g) :
    x.type = .missing_prerequisites ∧ x.severity = .error := by
  unfold validatePrerequisites at hx
  have h := foldl_mem_invariant
    (fun e => e.type = ErrType.missing_prerequisites ∧ e.severity = Severity.error)
    _ (by
      intro acc b y hy
      split at hy
      · split at hy
        · rename_i q
          have h2 := foldl_mem_invariant
            (fun e => e.type = ErrType.missing_prerequisites ∧ e.severity = Severity.error)
            _ (by
              intro acc2 pr z hz
              split at hz
              · rcases List.mem_append.mp hz with h | h
                · exact Or.inl h
                · rcases List.mem_singleton.mp h with rfl; exact Or.inr ⟨rfl, rfl⟩
              · exact Or.inl hz)
            _ _ y hy
          exact h2
        · exact Or.inl hy
      · exact Or.inl hy)
    _ _ x hx
  rcases h with h | h
  · simp at h
  · exact h

theorem mem_validateConditions (g : Graph) (x : VError) (hx : x ∈ validateConditions g) :
    x.type = .invalid_condition ∧ x.severity = .error := by
  unfold validateConditions at hx
  have h := foldl_mem_invariant
    (fun e => e.type = ErrType.invalid_condition ∧ e.severity = Severity.error)
    _ (by
      intro acc b y hy
      split at hy
      · split at hy
        · rename_i q
          have h2 := foldl_mem_invariant
            (fun e => e.type = ErrType.invalid_condition ∧ e.severity = Severity.error)
            _ (by
              intro acc2 c z hz
              split at hz
              · rcases List.mem_append.mp hz with h | h
                · exact Or.inl h
                · rcases List.mem_singleton.mp h with rfl; exact Or.inr ⟨rfl, rfl⟩
              · exact Or.inl hz)
            _ _ y hy
          exact h2
        · exact Or.inl hy
      · exact Or.inl hy)
    _ _ x hx
  rcases h with h | h
  · simp at h
  · exact h

theorem mem_detectCircularDependencies (g : Graph) (x : VError)
    (hx : x ∈ detectCircularDependencies g) :
    x.type = .circular_dependency ∧ x.severity = .error := by
  unfold detectCircularDependencies at hx
  suffices h : ∀ (l : List (String × GNode)) (acc : List VError × DfsSt),
      (∀ y ∈ acc.1, y.type = ErrType.circular_dependency ∧ y.severity = Severity.error) →
      ∀ y ∈ (l.foldl (fun (acc : List VError × DfsSt) p =>
        if acc.2.visited.contains p.1 then acc
        else
          match dfsVisit g ((uni g).length + 1) p.1 acc.2 with
          | (true, st2) =>
            (acc.1 ++ [{ type := .circular_dependency, nodeId := some p.1, severity := .error }], st2)
          | (false, st2) => (acc.1, st2)) acc).1,
        y.type = ErrType.circular_dependency ∧ y.severity = Severity.error by
    exact h g.nodes ([], ⟨[], []⟩) (by intro y hy; simp at hy) x hx
  intro l
  induction l with
  | nil => intro acc hacc y hy; exact hacc y hy
  | cons p ps ih =>
    intro acc hacc y hy
    rw [List.foldl_cons] at hy
    refine ih _ ?_ y hy
    intro z hz
    cases hc : acc.2.visited.contains p.1 with
    | true => simp only [hc, if_true] at hz; exact hacc z hz
    | false =>
      simp only [hc, Bool.false_eq_true, if_false] at hz
      rcases hdv : dfsVisit g ((uni g).length + 1) p.1 acc.2 with ⟨b, st2⟩
      rw [hdv] at hz
      cases b with
      | true =>
        simp only [] at hz
        rcases List.mem_append.mp hz with h | h
        · exact hacc z h
        · rcases List.mem_singleton.mp h with rfl; exact ⟨rfl, rfl⟩
      | false => exact hacc z hz

/- ===================== filter helpers ===================== -/

theorem filter_type_eq_nil (L : List VError) (T : ErrType)
    (h : ∀ x ∈ L, x.type ≠ T) : L.filter (fun e => e.type == T) = [] := by
  rw [List.filter_eq_nil_iff]
  intro a ha
  exact (Bool.not_eq_true _).mpr (beq_eq_false_iff_ne.mpr (h a ha))

theorem filter_type_eq_self (L : List VError) (T : ErrType)
    (h : ∀ x ∈ L, x.type = T) : L.filter (fun e => e.type == T) = L := by
  rw [List.filter_eq_self]
  intro a ha
  exact beq_iff_eq.mpr (h a ha)

theorem filter_sev_eq_nil (L : List VError) (S : Severity)
    (h : ∀ x ∈ L, x.severity ≠ S) : L.filter (fun e => e.severity == S) = [] := by
  rw [List.filter_eq_nil_iff]
  intro a ha
  exact (Bool.not_eq_true _).mpr (beq_eq_false_iff_ne.mpr (h a ha))

theorem filter_sev_eq_self (L : List VError) (S : Severity)
    (h : ∀ x ∈ L, x.severity = S) : L.filter (fun e => e.severity == S) = L := by
  rw [List.filter_eq_self]
  intro a ha
  exact beq_iff_eq.mpr (h a ha)

/-- The errors and warnings of a whole-graph validation run, decomposed
into the passes: the orphan pass only warns, every other pass only
errors. -/
theorem validateStoryGraph_parts (arcs : List StoryArcRec) (quests : List QuestRec)
    (dialogues : List DialogueRec) :
    (validateStoryGraph arcs quests dialogues).errors =
      detectUnreachableNodes (buildGraph arcs quests dialogues) ++
      detectBrokenChains (buildGraph arcs quests dialogues) ++
      detectCircularDependencies (buildGraph arcs quests dialogues) ++
      validatePrerequisites (buildGraph arcs quests dialogues) ++
      validateConditions (buildGraph arcs quests dialogues) ∧
    (validateStoryGraph arcs quests dialogues).warnings =
      detectOrphanNodes (buildGraph arcs quests dialogues) := by
  set g := buildGraph arcs quests dialogues with hg
  have ho : ∀ x ∈ detectOrphanNodes g, x.severity = Severity.warning :=
    fun x hx => (mem_detectOrphanNodes g x hx).2
  have hu : ∀ x ∈ detectUnreachableNodes g, x.severity = Severity.error :=
    fun x hx => (mem_detectUnreachableNodes g x hx).2
  have hb : ∀ x ∈ detectBrokenChains g, x.severity = Severity.error :=
    fun x hx => (mem_detectBrokenChains g x hx).2
  have hc : ∀ x ∈ detectCircularDependencies g, x.severity = Severity.error :=
    fun x hx => (mem_detectCircularDependencies g x hx).2
  have hp : ∀ x ∈ validatePrerequisites g, x.severity = Severity.error :=
    fun x hx => (mem_validatePrerequisites g x hx).2
  have hcd : ∀ x ∈ validateConditions g, x.severity = Severity.error :=
    fun x hx => (mem_validateConditions g x hx).2
  constructor
  · simp only [validateStoryGraph, ← hg]
    rw [filter_sev_eq_nil _ _ (by intro x hx; rw [ho x hx]; simp),
      filter_sev_eq_self _ _ hu, filter_sev_eq_self _ _ hb, filter_sev_eq_self _ _ hc,
      filter_sev_eq_self _ _ hp, filter_sev_eq_self _ _ hcd]
    simp
  · simp only [validateStoryGraph, ← hg]
    rw [filter_sev_eq_self _ _ ho,
      filter_sev_eq_nil _ _ (by intro x hx; rw [hu x hx]; simp),
      filter_sev_eq_nil _ _ (by intro x hx; rw [hb x hx]; simp),
      filter_sev_eq_nil _ _ (by intro x hx; rw [hc x hx]; simp),
      filter_sev_eq_nil _ _ (by intro x hx; rw [hp x hx]; simp),
      filter_sev_eq_nil _ _ (by intro x hx; rw [hcd x hx]; simp)]
    simp

/- ===================== C9 ===================== -/

/-- C9 (amended): generateSummary counts only error-severity findings:
the three error-producing categories match the total finding counts,
but summary.orphanNodes is always 0 because orphan findings are
warnings and the summary is computed from the errors list alone. -/
theorem c9_amended (arcs : List StoryArcRec) (quests : List QuestRec)
    (dialogues : List DialogueRec) :
    (validateStoryGraph arcs quests dialogues).summary.orphanNodes = 0 ∧
    (validateStoryGraph arcs quests dialogues).summary.unreachableNodes =
      (((validateStoryGraph arcs quests dialogues).errors ++
        (validateStoryGraph arcs quests dialogues).warnings).filter
          (fun e => e.type == ErrType.unreachable)).length ∧
    (validateStoryGraph arcs quests dialogues).summary.brokenChains =
      (((validateStoryGraph arcs quests dialogues).errors ++
        (validateStoryGraph arcs quests dialogues).warnings).filter
          (fun e => e.type == ErrType.broken_chain)).length ∧
    (validateStoryGraph arcs quests dialogues).summary.circularDependencies =
      (((validateStoryGraph arcs quests dialogues).errors ++
        (validateStoryGraph arcs quests dialogues).warnings).filter
          (fun e => e.type == ErrType.circular_dependency)).length := by
  obtain ⟨he, hw⟩ := validateStoryGraph_parts arcs quests dialogues
  set g := buildGraph arcs quests dialogues with hg
  have hsum : (validateStoryGraph arcs quests dialogues).summary =
      generateSummary g (validateStoryGraph arcs quests dialogues).errors
        (validateStoryGraph arcs quests dialogues).warnings := by
    simp only [validateStoryGraph, ← hg, generateSummary]
  have horf : ∀ x ∈ (validateStoryGraph arcs quests dialogues).warnings, x.type = ErrType.orphan := by
    rw [hw]; exact fun x hx => (mem_detectOrphanNodes g x hx).1
  have hwfilter : ∀ T, T ≠ ErrType.orphan →
      ((validateStoryGraph arcs quests dialogues).warnings.filter (fun e => e.type == T)) = [] := by
    intro T hT
    exact filter_type_eq_nil _ _ (fun x hx => by rw [horf x hx]; exact fun h => hT h.symm)
  refine ⟨?_, ?_, ?_, ?_⟩
  · rw [hsum]
    show ((validateStoryGraph arcs quests dialogues).errors.filter
      (fun e => e.type == ErrType.orphan)).length = 0
    rw [he]
    rw [show ∀ (a b c d e : List VError), a ++ b ++ c ++ d ++ e =
      a ++ (b ++ (c ++ (d ++ e))) from by intro a b c d e; simp, List.filter_append,
      List.filter_append, List.filter_append, List.filter_append]
    rw [filter_type_eq_nil _ _ (fun x hx => by rw [(mem_detectUnreachableNodes g x hx).1]; simp),
      filter_type_eq_nil _ _ (fun x hx => by rw [(mem_detectBrokenChains g x hx).1]; simp),
      filter_type_eq_nil _ _ (fun x hx => by rw [(mem_detectCircularDependencies g x hx).1]; simp),
      filter_type_eq_nil _ _ (fun x hx => by rw [(mem_validatePrerequisites g x hx).1]; simp),
      filter_type_eq_nil _ _ (fun x hx => by rw [(mem_validateConditions g x hx).1]; simp)]
    simp
  · rw [hsum]
    show ((validateStoryGraph arcs quests dialogues).errors.filter
      (fun e => e.type == ErrType.unreachable)).length = _
    rw [List.filter_append, hwfilter ErrType.unreachable (by intro h; cases h),
      List.append_nil]
  · rw [hsum]
    show ((validateStoryGraph arcs quests dialogues).errors.filter
      (fun e => e.type == ErrType.broken_chain)).length = _
    rw [List.filter_append, hwfilter ErrType.broken_chain (by intro h; cases h),
      List.append_nil]
  · rw [hsum]
    show ((validateStoryGraph arcs quests dialogues).errors.filter
      (fun e => e.type == ErrType.circular_dependency)).length = _
    rw [List.filter_append, hwfilter ErrType.circular_dependency (by intro h; cases h),
      List.append_nil]

/-- Counterexample for C9: a lone story arc produces one orphan
finding, yet the summary reports zero orphan nodes, because the
summary counts only the errors list and orphan findings are
warnings. -/
theorem c9_counterexample :
    ((validateStoryGraph [arc9] [] []).warnings.filter
      (fun e => e.type == ErrType.orphan)).length = 1 ∧
    (validateStoryGraph [arc9] [] []).summary.orphanNodes = 0 := by
  with_unfolding_all decide

/- ===================== C6 ===================== -/

/-- C6 (amended): in quest-local validation, a quest with at least one
declared outcome gets exactly one probability-sum warning when the
declared probabilities do not sum to 100 within 0.01, and none when
they do; the finding has severity warning (its type field is the reused
broken_chain tag).  A quest with no declared outcomes gets no
probability-sum finding at all, even though its empty sum of 0 lies
outside the tolerance (it gets a missing-outcome error instead). -/
theorem c6_amended (q : QuestRec) :
    ((validateQuest q).warnings.length =
      if q.outcomes.getD [] ≠ [] ∧ ¬(|outcomeProbTotal (q.outcomes.getD []) - 100| ≤ 1/100)
      then 1 else 0) ∧
    ((validateQuest q).warnings.all
      (fun e => e.type == ErrType.broken_chain && e.severity == Severity.warning &&
        e.nodeId == some q.id)) = true := by
  rw [validateQuest_warnings]
  by_cases h1 : q.outcomes.getD [] = []
  · simp [h1]
  · by_cases h2 : |outcomeProbTotal (q.outcomes.getD []) - 100| ≤ 1/100
    · simp [h1, h2]
      split_ifs <;> simp
    · simp [h1, h2]
      split_ifs <;> simp

/-- Counterexample for C6: the declared outcome probabilities of q6 sum
to 0, outside the 100 plus or minus 0.01 tolerance, yet quest-local
validation emits zero warnings (the probability-sum check is skipped
when the outcome list is empty). -/
theorem c6_counterexample :
    outcomeProbTotal (q6.outcomes.getD []) = 0 ∧
    ¬(|(0 : ℚ) - 100| ≤ 1/100) ∧
    (validateQuest q6).warnings = [] := by
  refine ⟨rfl, by norm_num, ?_⟩
  with_unfolding_all decide

/- ===================== C5 ===================== -/

theorem foldl_push_eq {α β : Type} (c : β → Bool) (e : β → α) :
    ∀ (l : List β) (init : List α),
      List.foldl (fun acc b => if c b then acc ++ [e b] else acc) init l
        = init ++ l.flatMap (fun b => if c b then [e b] else []) := by
  intro l
  induction l with
  | nil => intro init; simp
  | cons b bs ih => intro init; cases hc : c b <;> simp [List.foldl_cons, hc, ih]

theorem length_flatMap_push {α β : Type} (c : β → Bool) (e : β → α) :
    ∀ l : List β, (l.flatMap (fun b => if c b then [e b] else [])).length = l.countP c := by
  intro l
  induction l with
  | nil => rfl
  | cons b bs ih => cases hc : c b <;> simp [hc, ih, List.countP_cons]

theorem validateConditions_length (g : Graph) :
    (validateConditions g).length = (g.nodes.map badCondCount).sum := by
  unfold validateConditions
  suffices h : ∀ (l : List (String × GNode)) (init : List VError),
      (l.foldl (fun acc p =>
        if p.2.type == NodeType.quest then
          match p.2.data with
          | .quest q =>
            (questConditions q).foldl (fun acc c =>
              if !isValidCondition c then
                acc ++ [{ type := .invalid_condition, nodeId := some p.1, severity := .error }]
              else acc) acc
          | _ => acc
        else acc) init).length = init.length + (l.map badCondCount).sum by
    simpa using h g.nodes []
  intro l
  induction l with
  | nil => intro init; simp
  | cons p ps ih =>
    intro init
    rw [List.foldl_cons, ih]
    rcases p with ⟨k, n⟩
    cases ht : n.type == NodeType.quest with
    | false => simp [badCondCount, ht]
    | true =>
      cases hd : n.data with
      | quest q =>
        simp only [ht, if_true, hd]
        rw [foldl_push_eq, List.length_append,
          length_flatMap_push (fun c => !isValidCondition c)]
        simp [badCondCount, ht, hd, Nat.add_assoc]
      | arc a => simp [badCondCount, ht, hd]
      | dlg d => simp [badCondCount, ht, hd]

/-- C5 (amended): whole-graph validation emits one invalid_condition
error per condition failing isValidCondition, and isValidCondition
accepts exactly the conditions with truthy type, operator and value
where the type is stat, inventory, flag or quest (reputation is not in
the accepted list, so every reputation-typed condition is rejected),
the operator is one of the eight known ones, and a stat condition does
not use has or not_has. -/
theorem c5_amended (arcs : List StoryArcRec) (quests : List QuestRec)
    (dialogues : List DialogueRec) :
    (∀ c : Condition, c.type = some "reputation" → isValidCondition c = false) ∧
    (∀ c : Condition, isValidCondition c = true ↔
      (strFalsy c.type = false ∧ strFalsy c.operator = false ∧ valFalsy c.value = false ∧
       c.type.getD "" ∈ (["stat", "inventory", "flag", "quest"] : List String) ∧
       c.operator.getD "" ∈ (["eq", "gt", "lt", "gte", "lte", "ne", "has", "not_has"] : List String) ∧
       ¬(c.type = some "stat" ∧ (c.operator = some "has" ∨ c.operator = some "not_has")))) ∧
    ((validateStoryGraph arcs quests dialogues).errors.filter
        (fun e => e.type == ErrType.invalid_condition)).length =
      ((buildGraph arcs quests dialogues).nodes.map badCondCount).sum := by
  refine ⟨?_, ?_, ?_⟩
  · intro c h
    unfold isValidCondition
    rw [h]
    by_cases h1 : strFalsy c.operator
    · simp [strFalsy, h1]
    · by_cases h2 : valFalsy c.value
      · simp [strFalsy, h1, h2]
      · simp [strFalsy, h1, h2]
  · intro c
    unfold isValidCondition
    by_cases h1 : strFalsy c.type
    · simp [h1]
    · by_cases h2 : strFalsy c.operator
      · simp [h1, h2]
      · by_cases h3 : valFalsy c.value
        · simp [h1, h2, h3]
        · simp only [h1, h2, h3, Bool.false_or, if_false]
          by_cases h4 : (c.type.getD "") ∈ (["stat", "inventory", "flag", "quest"] : List String)
          · by_cases h5 : (c.operator.getD "") ∈
                (["eq", "gt", "lt", "gte", "lte", "ne", "has", "not_has"] : List String)
            · by_cases h6 : c.type = some "stat" ∧
                  (c.operator = some "has" ∨ c.operator = some "not_has")
              · have : (c.type == some "stat" &&
                    (c.operator == some "has" || c.operator == some "not_has")) = true := by
                  rcases h6 with ⟨ha, hb⟩
                  rcases hb with hb | hb <;> simp [ha, hb]
                simp [h4, h5, this, h1, h2, h3, h6]
              · have : (c.type == some "stat" &&
                    (c.operator == some "has" || c.operator == some "not_has")) = false := by
                  rw [Bool.and_eq_false_iff]
                  by_cases ha : c.type = some "stat"
                  · right
                    rw [Bool.or_eq_false_iff]
                    push_neg at h6
                    rcases h6 ha with ⟨hb, hc⟩
                    constructor
                    · exact beq_eq_false_iff_ne.mpr hb
                    · exact beq_eq_false_iff_ne.mpr hc
                  · exact Or.inl (beq_eq_false_iff_ne.mpr ha)
                simp [h4, h5, this, h1, h2, h3, h6]
            · simp [h4, h5, h1, h2, h3]
          · simp [h4, h1, h2, h3]
  · obtain ⟨he, _⟩ := validateStoryGraph_parts arcs quests dialogues
    set g := buildGraph arcs quests dialogues with hg
    rw [he]
    rw [show ∀ (a b c d e : List VError), a ++ b ++ c ++ d ++ e =
      a ++ (b ++ (c ++ (d ++ e))) from by intro a b c d e; simp, List.filter_append,
      List.filter_append, List.filter_append, List.filter_append]
    rw [filter_type_eq_nil _ _ (fun x hx => by rw [(mem_detectUnreachableNodes g x hx).1]; simp),
      filter_type_eq_nil _ _ (fun x hx => by rw [(mem_detectBrokenChains g x hx).1]; simp),
      filter_type_eq_nil _ _ (fun x hx => by rw [(mem_detectCircularDependencies g x hx).1]; simp),
      filter_type_eq_nil _ _ (fun x hx => by rw [(mem_validatePrerequisites g x hx).1]; simp),
      filter_type_eq_self _ _ (fun x hx => (mem_validateConditions g x hx).1)]
    simpa using validateConditions_length g

/-- Witness for C5 (amended): the reputation-typed condition cRep is
rejected by isValidCondition even though all three fields are present
and its operator is an ordering one. -/
theorem c5_amended_witness :
    isValidCondition cRep = false ∧
    ((validateStoryGraph [] [q5] []).errors.filter
        (fun e => e.type == ErrType.invalid_condition)).length =
      ((buildGraph [] [q5] []).nodes.map badCondCount).sum := by
  obtain ⟨h1, _, h3⟩ := c5_amended [] [q5] []
  exact ⟨h1 cRep rfl, h3⟩

/-- Counterexample for C5: cRep has type, operator and value all
present and satisfies the compatibility matrix of the claim (an
ordering operator on a Reputation condition), yet whole-graph
validation emits an invalid_condition error for the quest carrying it,
because the source accepts only stat, inventory, flag and quest types. -/
theorem c5_counterexample :
    (cRep.type = some "reputation" ∧ cRep.operator = some "gte" ∧
     cRep.value = some (JVal.num 50) ∧ cRep.operator ≠ some "has" ∧
     cRep.operator ≠ some "not_has") ∧
    ((validateStoryGraph [] [q5] []).errors.filter
      (fun e => e.type == ErrType.invalid_condition)).length = 1 := by
  with_unfolding_all decide

/- ===================== C7 ===================== -/

/-- C7 (amended): whenever the alignment triple is numeric and its
post-addition total is positive, applyAlignmentChanges renormalizes the
triple so that it sums to exactly 100, with the evil component set to
the remainder 100 - good - neutral after rounding; when the total is
not positive (reachable only through caller-supplied alignment
overrides) the normalization is skipped and the sum is just the
total. -/
theorem c7_amended (s : PlayerState) (ch : AlignChanges) (g0 n0 e0 : ℚ)
    (hg : s.alignment.good = some g0) (hn : s.alignment.neutral = some n0)
    (he : s.alignment.evil = some e0)
    (hpos : 0 < g0 + ch.good + (n0 + ch.neutral) + (e0 + ch.evil)) :
    ∃ a b : ℚ, (applyAlignmentChanges s ch).alignment =
      { good := some a, neutral := some b, evil := some (100 - a - b) } ∧
      a + b + (100 - a - b) = 100 := by
  simp only [applyAlignmentChanges, hg, hn, he, jsAdd]
  rw [if_pos hpos]
  exact ⟨_, _, rfl, by ring⟩

/-- Witness for C7 (amended): applied to the default initial alignment
and the neutral dialogue delta. -/
theorem c7_amended_witness :
    ∃ a b : ℚ,
      (applyAlignmentChanges (initPlayerState none)
        { good := 0, neutral := 2, evil := 0 }).alignment =
        { good := some a, neutral := some b, evil := some (100 - a - b) } ∧
      a + b + (100 - a - b) = 100 :=
  c7_amended (initPlayerState none) { good := 0, neutral := 2, evil := 0 } 0 50 0
    rfl rfl rfl (by norm_num)

/-- Counterexample for C7: a full simulation run on a caller-supplied
alignment override summing to -10; a completed dialogue quest applies
the nonzero delta (3, 2, 0) and emits an alignment_change event, but
the post-addition total -5 is not positive, so the normalization is
skipped and the final triple sums to -5, not 100. -/
theorem c7_counterexample :
    (∃ e ∈ (runSimulation (initPlayerState req7.initial_state) [q7] [] req7
        [0, 1/2]).events, e.type = EvType.alignment_change) ∧
    (runSimulation (initPlayerState req7.initial_state) [q7] [] req7
        [0, 1/2]).final_state.alignment =
      { good := some (-7), neutral := some 2, evil := some 0 } ∧
    (-7 : ℚ) + 2 + 0 ≠ 100 := by
  with_unfolding_all decide

/- ===================== C8 ===================== -/

/-- C8 (amended): applyReputationChanges clamps to [-100, 100] exactly
the factions that receive a change in the step; a faction absent from
the change map keeps its previous value, which caller-supplied
overrides can place outside the range. -/
theorem c8_amended (s : PlayerState) (changes : List (String × ℚ)) (f : String) :
    (f ∈ changes.map Prod.fst →
      ∃ v : ℚ, mapGet (applyReputationChanges s changes).reputation f = some v ∧
        -100 ≤ v ∧ v ≤ 100) ∧
    (f ∉ changes.map Prod.fst →
      mapGet (applyReputationChanges s changes).reputation f = mapGet s.reputation f) := by
  suffices h : ∀ (ch : List (String × ℚ)) (rep : List (String × ℚ)),
      (f ∈ ch.map Prod.fst → ∃ v : ℚ,
        mapGet (ch.foldl (fun rep p =>
          mapSet (mapSet rep p.1 ((mapGet rep p.1).getD 0 + p.2)) p.1
            (max (-100) (min 100
              ((mapGet (mapSet rep p.1 ((mapGet rep p.1).getD 0 + p.2)) p.1).getD 0)))) rep) f
        = some v ∧ -100 ≤ v ∧ v ≤ 100) ∧
      (f ∉ ch.map Prod.fst →
        mapGet (ch.foldl (fun rep p =>
          mapSet (mapSet rep p.1 ((mapGet rep p.1).getD 0 + p.2)) p.1
            (max (-100) (min 100
              ((mapGet (mapSet rep p.1 ((mapGet rep p.1).getD 0 + p.2)) p.1).getD 0)))) rep) f
        = mapGet rep f) by
    exact h changes s.reputation
  intro ch
  induction ch with
  | nil => intro rep; exact ⟨by intro h; simp at h, by intro _; rfl⟩
  | cons c cs ih =>
    intro rep
    constructor
    · intro hin
      rw [List.foldl_cons]
      by_cases hf : f ∈ cs.map Prod.fst
      · exact (ih _).1 hf
      · have hfc : f = c.1 := by
          rw [List.map_cons] at hin
          rcases List.mem_cons.mp hin with h | h
          · exact h
          · exact absurd h hf
        refine ⟨max (-100) (min 100
          ((mapGet (mapSet rep c.1 ((mapGet rep c.1).getD 0 + c.2)) c.1).getD 0)), ?_,
          le_max_left _ _, max_le (by norm_num) (min_le_left _ _)⟩
        rw [(ih _).2 hf, hfc]
        exact mapGet_mapSet_self _ _ _
    · intro hnin
      have hfc : f ≠ c.1 := by
        intro heq
        refine hnin ?_
        rw [List.map_cons, heq]
        exact List.mem_cons_self _ _
      have hfs : f ∉ cs.map Prod.fst := by
        intro hmem
        refine hnin ?_
        rw [List.map_cons]
        exact List.mem_cons_of_mem _ hmem
      rw [List.foldl_cons, (ih _).2 hfs,
        mapGet_mapSet_ne _ _ _ _ hfc, mapGet_mapSet_ne _ _ _ _ hfc]

/-- Witness for C8 (amended): the changed faction guards is clamped,
the untouched faction townsfolk keeps its default. -/
theorem c8_amended_witness :
    (∃ v : ℚ, mapGet (applyReputationChanges (initPlayerState none)
        [("guards", 300)]).reputation "guards" = some v ∧ -100 ≤ v ∧ v ≤ 100) ∧
    mapGet (applyReputationChanges (initPlayerState none)
        [("guards", 300)]).reputation "townsfolk" =
      mapGet (initPlayerState none).reputation "townsfolk" := by
  constructor
  · exact (c8_amended (initPlayerState none) [("guards", 300)] "guards").1 (by decide)
  · exact (c8_amended (initPlayerState none) [("guards", 300)] "townsfolk").2 (by decide)

set_option maxRecDepth 8192 in
/-- Counterexample for C8: a run whose caller-supplied reputation
override holds 500 for the faction cult; a simulation step completes a
quest but the cult faction receives no change, so it is never clamped
and the state after the step still holds 500, outside [-100, 100]. -/
theorem c8_counterexample :
    (runSimulation (initPlayerState req8.initial_state) [q8] [] req8
      [0, 1/2]).completed_quests = ["Q8"] ∧
    mapGet (runSimulation (initPlayerState req8.initial_state) [q8] [] req8
      [0, 1/2]).final_state.reputation "cult" = some 500 ∧
    ¬((500 : ℚ) ≤ 100) := by
  with_unfolding_all decide

/- ===================== C1 ===================== -/

/-- C1: the code disagrees with the claim.  For a request with
max_duration = 0, the loop budget is (request.max_duration or-else 60)
times 60; the JS or-else treats the number 0 as falsy, so a zero
max_duration selects the 60-minute default instead of a zero budget.
On the failing input (one available quest), the loop therefore runs:
it starts and resolves the quest and returns three events, where the
claim requires zero iterations, events = [] and an unchanged state. -/
theorem c1_max_duration_zero_runs_loop :
    req1.max_duration = some 0 ∧
    (runSimulation (initPlayerState req1.initial_state) [q1sim] [] req1
      [0, 1/2]).events.map (fun e => e.type) =
      [EvType.quest_start, EvType.quest_complete, EvType.alignment_change] ∧
    (runSimulation (initPlayerState req1.initial_state) [q1sim] [] req1
      [0, 1/2]).events ≠ [] := by
  refine ⟨rfl, ?_, ?_⟩ <;> with_unfolding_all decide

/- ===================== C4 ===================== -/

theorem foldl_pres {σ β : Type} (P : σ → Prop) (f : σ → β → σ)
    (hf : ∀ s b, P s → P (f s b)) : ∀ (l : List β) (s : σ), P s → P (l.foldl f s) := by
  intro l
  induction l with
  | nil => intro s hs; exact hs
  | cons b bs ih => intro s hs; exact ih _ (hf s b hs)

theorem mapGet_map_keyfun {α β : Type} (h : String → α → β) (m : List (String × α)) (k : String) :
    mapGet (m.map (fun p => (p.1, h p.1 p.2))) k = (mapGet m k).map (h k) := by
  induction m with
  | nil => rfl
  | cons p ps ih =>
    rw [List.map_cons, mapGet_cons, mapGet_cons]
    cases hp : p.1 == k with
    | true =>
      have : p.1 = k := beq_iff_eq.mp hp
      simp [this]
    | false => simp only [hp, if_false]; exact ih

theorem addEdgeToNodes_eq_map (nodes : List (String × GNode)) (s t : String) :
    addEdgeToNodes nodes s t = nodes.map (fun p => (p.1, edgeUpd s t p.1 p.2)) := rfl

theorem mapGet_addEdgeToNodes (nodes : List (String × GNode)) (s t k : String) :
    mapGet (addEdgeToNodes nodes s t) k = (mapGet nodes k).map (edgeUpd s t k) := by
  rw [addEdgeToNodes_eq_map]
  exact mapGet_map_keyfun (edgeUpd s t) nodes k

theorem edgeUpd_incoming (s t k : String) (n : GNode) :
    (edgeUpd s t k n).incoming = n.incoming ++ (if k == t then [s] else []) := by
  unfold edgeUpd
  cases h1 : k == s <;> cases h2 : k == t <;> simp [h1, h2]

theorem edgeUpd_type (s t k : String) (n : GNode) : (edgeUpd s t k n).type = n.type := by
  unfold edgeUpd
  cases h1 : k == s <;> cases h2 : k == t <;> simp [h1, h2]

theorem edgeUpd_data (s t k : String) (n : GNode) : (edgeUpd s t k n).data = n.data := by
  unfold edgeUpd
  cases h1 : k == s <;> cases h2 : k == t <;> simp [h1, h2]

theorem incomingLen_addEdge_mono (m : List (String × GNode)) (s t k : String) :
    incomingLen m k ≤ incomingLen (addEdgeToNodes m s t) k := by
  unfold incomingLen
  rw [mapGet_addEdgeToNodes]
  cases h : mapGet m k with
  | none => simp [h]
  | some n => simp [h, edgeUpd_incoming]

theorem incomingLen_addEdge_target (m : List (String × GNode)) (s k : String)
    (h : (mapGet m k).isSome) :
    incomingLen m k + 1 ≤ incomingLen (addEdgeToNodes m s k) k := by
  unfold incomingLen
  rw [mapGet_addEdgeToNodes]
  cases hm : mapGet m k with
  | none => rw [hm] at h; simp at h
  | some n => simp [hm, edgeUpd_incoming]

theorem isSome_mapGet_mapSet {α : Type} (m : List (String × α)) (k k2 : String) (v : α)
    (h : (mapGet m k).isSome) : (mapGet (mapSet m k2 v) k).isSome := by
  by_cases hk : k = k2
  · subst hk; rw [mapGet_mapSet_self]; rfl
  · rw [mapGet_mapSet_ne _ _ _ _ hk]; exact h

theorem isSome_mapGet_addEdge (m : List (String × GNode)) (s t k : String)
    (h : (mapGet m k).isSome) : (mapGet (addEdgeToNodes m s t) k).isSome := by
  rw [mapGet_addEdgeToNodes]
  cases hm : mapGet m k with
  | none => rw [hm] at h; simp at h
  | some n => simp

theorem mapSet_keys {α : Type} (m : List (String × α)) (k : String) (v : α) :
    (mapSet m k v).map Prod.fst =
      if m.any (fun p => p.1 == k) then m.map Prod.fst else m.map Prod.fst ++ [k] := by
  unfold mapSet
  split
  · rw [List.map_map]
    refine List.map_congr_left ?_
    intro p _
    by_cases hp : p.1 == k
    · simp [hp, (beq_iff_eq.mp hp).symm]
    · show (if (p.1 == k) = true then (k, v) else p).1 = p.1
      rw [if_neg hp]
  · simp

theorem keysNodup_mapSet {α : Type} (m : List (String × α)) (k : String) (v : α)
    (h : (m.map Prod.fst).Nodup) : ((mapSet m k v).map Prod.fst).Nodup := by
  rw [mapSet_keys]
  split
  · exact h
  · rename_i hany
    have hk : k ∉ m.map Prod.fst := by
      intro hmem
      rcases List.mem_map.mp hmem with ⟨p, hp, hpk⟩
      have : m.any (fun p => p.1 == k) = true :=
        List.any_eq_true.mpr ⟨p, hp, beq_iff_eq.mpr hpk⟩
      exact hany this
    simp [List.nodup_append, h, hk]

theorem addEdgeToNodes_keys (m : List (String × GNode)) (s t : String) :
    (addEdgeToNodes m s t).map Prod.fst = m.map Prod.fst := by
  rw [addEdgeToNodes_eq_map, List.map_map]
  exact List.map_congr_left (fun p _ => rfl)

theorem mapGet_of_mem_nodup {α : Type} (m : List (String × α))
    (hnd : (m.map Prod.fst).Nodup) (k : String) (v : α) (hm : (k, v) ∈ m) :
    mapGet m k = some v := by
  induction m with
  | nil => simp at hm
  | cons p ps ih =>
    rw [List.map_cons, List.nodup_cons] at hnd
    rcases List.mem_cons.mp hm with h | h
    · rw [mapGet_cons, ← h]
      simp
    · have hk : k ∈ ps.map Prod.fst := List.mem_map.mpr ⟨(k, v), h, rfl⟩
      have hne : (p.1 == k) = false := by
        cases hpk : p.1 == k
        · rfl
        · exact absurd (beq_iff_eq.mp hpk ▸ hk) hnd.1
      rw [mapGet_cons, hne]
      simp only [Bool.false_eq_true, if_false]
      exact ih hnd.2 h

theorem mapGet_mapSet_cases {α : Type} (m : List (String × α)) (k k2 : String) (v : α) :
    mapGet (mapSet m k v) k2 = if k2 = k then some v else mapGet m k2 := by
  by_cases h : k2 = k
  · subst h; rw [mapGet_mapSet_self, if_pos rfl]
  · rw [mapGet_mapSet_ne _ _ _ _ h, if_neg h]

theorem foldl_pres_mem {σ β : Type} (P : σ → Prop) (f : σ → β → σ) :
    ∀ (l : List β), (∀ s b, b ∈ l → P s → P (f s b)) → ∀ (s : σ), P s → P (l.foldl f s) := by
  intro l
  induction l with
  | nil => intro _ s hs; exact hs
  | cons b bs ih =>
    intro hf s hs
    exact ih (fun s2 b2 hb2 => hf s2 b2 (List.mem_cons_of_mem _ hb2)) _
      (hf s b (List.mem_cons_self _ _) hs)

theorem addQuestEdges_nodes_pres (P : List (String × GNode) → Prop)
    (hP : ∀ m s t, P m → P (addEdgeToNodes m s t))
    (g : Graph) (q : QuestRec) (h : P g.nodes) : P (addQuestEdges g q).nodes := by
  unfold addQuestEdges
  refine foldl_pres (fun (g2 : Graph) => P g2.nodes) _ ?_ _ _ ?_
  · intro s o hs
    dsimp only
    split
    · exact hP _ _ _ hs
    · exact hs
  · refine foldl_pres (fun (g2 : Graph) => P g2.nodes) _ ?_ _ _ ?_
    · intro s p hs
      exact hP _ _ _ hs
    · dsimp only
      split
      · exact hP _ _ _ h
      · exact h

theorem addDialogueEdges_nodes_pres (P : List (String × GNode) → Prop)
    (hP : ∀ m s t, P m → P (addEdgeToNodes m s t))
    (g : Graph) (d : DialogueRec) (h : P g.nodes) : P (addDialogueEdges g d).nodes := by
  unfold addDialogueEdges
  split
  · exact hP _ _ _ h
  · exact h

theorem addQuestEdges_wires (g : Graph) (q : QuestRec)
    (hq : q.prerequisites.getD [] ≠ []) (hs : (mapGet g.nodes q.id).isSome) :
    1 ≤ incomingLen (addQuestEdges g q).nodes q.id := by
  unfold addQuestEdges
  have hmono : ∀ (m : List (String × GNode)) (s t : String),
      1 ≤ incomingLen m q.id → 1 ≤ incomingLen (addEdgeToNodes m s t) q.id :=
    fun m s t hm => le_trans hm (incomingLen_addEdge_mono m s t q.id)
  refine foldl_pres (fun (g2 : Graph) => 1 ≤ incomingLen g2.nodes q.id) _ ?_ _ _ ?_
  · intro s o hs2
    dsimp only
    split
    · exact hmono _ _ _ hs2
    · exact hs2
  · rcases List.exists_cons_of_ne_nil hq with ⟨p, rest, hpr⟩
    rw [hpr, List.foldl_cons]
    refine foldl_pres (fun (g2 : Graph) => 1 ≤ incomingLen g2.nodes q.id) _ ?_ _ _ ?_
    · intro s p2 hs2
      exact hmono _ _ _ hs2
    · dsimp only
      have hs1 : (mapGet (if !strFalsy q.storyArcId then
          { nodes := addEdgeToNodes g.nodes q.id (q.storyArcId.getD "")
            edges := mapSet g.edges (q.id ++ "_to_" ++ q.storyArcId.getD "")
              { id := q.id ++ "_to_" ++ q.storyArcId.getD "", source := q.id
                target := q.storyArcId.getD "", type := "belongs_to" } }
          else g).nodes q.id).isSome := by
        split
        · exact isSome_mapGet_addEdge _ _ _ _ hs
        · exact hs
      have hbump := incomingLen_addEdge_target ((if !strFalsy q.storyArcId then
          { nodes := addEdgeToNodes g.nodes q.id (q.storyArcId.getD "")
            edges := mapSet g.edges (q.id ++ "_to_" ++ q.storyArcId.getD "")
              { id := q.id ++ "_to_" ++ q.storyArcId.getD "", source := q.id
                target := q.storyArcId.getD "", type := "belongs_to" } }
          else g).nodes) (prereqIdStr p) q.id hs1
      omega

theorem buildGraph_keys_nodup (arcs : List StoryArcRec) (quests : List QuestRec)
    (dialogues : List DialogueRec) :
    ((buildGraph arcs quests dialogues).nodes.map Prod.fst).Nodup := by
  unfold buildGraph
  have hPkeys : ∀ (m : List (String × GNode)) (s t : String),
      (m.map Prod.fst).Nodup → ((addEdgeToNodes m s t).map Prod.fst).Nodup := by
    intro m s t hm
    rw [addEdgeToNodes_keys]
    exact hm
  refine foldl_pres (fun (g2 : Graph) => (g2.nodes.map Prod.fst).Nodup) _
    (fun s d hs => addDialogueEdges_nodes_pres _ hPkeys s d hs) _ _ ?_
  refine foldl_pres (fun (g2 : Graph) => (g2.nodes.map Prod.fst).Nodup) _
    (fun s p hs => addQuestEdges_nodes_pres _ hPkeys s p hs) _ _ ?_
  show ((dialogues.foldl _ (quests.foldl _ (arcs.foldl _ []))).map Prod.fst).Nodup
  refine foldl_pres (fun (m : List (String × GNode)) => (m.map Prod.fst).Nodup) _
    (fun s d hs => keysNodup_mapSet _ _ _ hs) _ _ ?_
  refine foldl_pres (fun (m : List (String × GNode)) => (m.map Prod.fst).Nodup) _
    (fun s p hs => keysNodup_mapSet _ _ _ hs) _ _ ?_
  refine foldl_pres (fun (m : List (String × GNode)) => (m.map Prod.fst).Nodup) _
    (fun s a hs => keysNodup_mapSet _ _ _ hs) _ _ ?_
  exact List.nodup_nil

theorem buildGraph_quest_data (arcs : List StoryArcRec) (quests : List QuestRec)
    (dialogues : List DialogueRec) :
    ∀ k n, mapGet (buildGraph arcs quests dialogues).nodes k = some n →
      n.type = NodeType.quest →
      ∃ q, q ∈ quests ∧ q.id = k ∧ n.data = NodeData.quest q := by
  unfold buildGraph
  have hPedge : ∀ (m : List (String × GNode)) (s t : String),
      (∀ k n, mapGet m k = some n → n.type = NodeType.quest →
        ∃ q, q ∈ quests ∧ q.id = k ∧ n.data = NodeData.quest q) →
      (∀ k n, mapGet (addEdgeToNodes m s t) k = some n → n.type = NodeType.quest →
        ∃ q, q ∈ quests ∧ q.id = k ∧ n.data = NodeData.quest q) := by
    intro m s t hm k n hget ht
    rw [mapGet_addEdgeToNodes] at hget
    cases hg : mapGet m k with
    | none => rw [hg] at hget; simp at hget
    | some n0 =>
      rw [hg] at hget
      have hn : n = edgeUpd s t k n0 := by simpa using hget.symm
      rcases hm k n0 hg (by rw [← edgeUpd_type s t k n0, ← hn]; exact ht) with
        ⟨q, hqmem, hqid, hdata⟩
      exact ⟨q, hqmem, hqid, by rw [hn, edgeUpd_data, hdata]⟩
  refine foldl_pres (fun (g2 : Graph) => ∀ k n, mapGet g2.nodes k = some n →
      n.type = NodeType.quest → ∃ q, q ∈ quests ∧ q.id = k ∧ n.data = NodeData.quest q) _
    (fun s d hs => addDialogueEdges_nodes_pres _ hPedge s d hs) _ _ ?_
  refine foldl_pres (fun (g2 : Graph) => ∀ k n, mapGet g2.nodes k = some n →
      n.type = NodeType.quest → ∃ q, q ∈ quests ∧ q.id = k ∧ n.data = NodeData.quest q) _
    (fun s p hs => addQuestEdges_nodes_pres _ hPedge s p hs) _ _ ?_
  show ∀ k n, mapGet (dialogues.foldl _ (quests.foldl _ (arcs.foldl _ []))) k = some n → _
  refine foldl_pres (fun (m : List (String × GNode)) => ∀ k n, mapGet m k = some n →
      n.type = NodeType.quest → ∃ q, q ∈ quests ∧ q.id = k ∧ n.data = NodeData.quest q) _
    ?_ _ _ ?_
  · intro m d hm k n hget ht
    rw [mapGet_mapSet_cases] at hget
    split at hget
    · cases hget
      cases ht
    · exact hm k n hget ht
  refine foldl_pres_mem (fun (m : List (String × GNode)) => ∀ k n, mapGet m k = some n →
      n.type = NodeType.quest → ∃ q, q ∈ quests ∧ q.id = k ∧ n.data = NodeData.quest q) _
    quests ?_ _ ?_
  · intro m b hb hm k n hget ht
    rw [mapGet_mapSet_cases] at hget
    split at hget
    · rename_i hk
      cases hget
      exact ⟨b, hb, hk.symm, rfl⟩
    · exact hm k n hget ht
  refine foldl_pres (fun (m : List (String × GNode)) => ∀ k n, mapGet m k = some n →
      n.type = NodeType.quest → ∃ q, q ∈ quests ∧ q.id = k ∧ n.data = NodeData.quest q) _
    ?_ _ _ ?_
  · intro m a hm k n hget ht
    rw [mapGet_mapSet_cases] at hget
    split at hget
    · cases hget
      cases ht
    · exact hm k n hget ht
  · intro k n hget ht
    simp [mapGet] at hget

theorem buildGraph_wired (arcs : List StoryArcRec) (quests : List QuestRec)
    (dialogues : List DialogueRec) (q : QuestRec) (hq : q ∈ quests)
    (hpr : q.prerequisites.getD [] ≠ []) :
    1 ≤ incomingLen (buildGraph arcs quests dialogues).nodes q.id := by
  obtain ⟨l1, l2, rfl⟩ := List.append_of_mem hq
  unfold buildGraph
  have hmono : ∀ (m : List (String × GNode)) (s t : String),
      1 ≤ incomingLen m q.id → 1 ≤ incomingLen (addEdgeToNodes m s t) q.id :=
    fun m s t hm => le_trans hm (incomingLen_addEdge_mono m s t q.id)
  have hsome : ∀ (m : List (String × GNode)) (s t : String),
      (mapGet m q.id).isSome → (mapGet (addEdgeToNodes m s t) q.id).isSome :=
    fun m s t hm => isSome_mapGet_addEdge m s t q.id hm
  refine foldl_pres (fun (g2 : Graph) => 1 ≤ incomingLen g2.nodes q.id) _
    (fun s d hs => addDialogueEdges_nodes_pres _ hmono s d hs) _ _ ?_
  rw [List.foldl_append, List.foldl_cons]
  refine foldl_pres (fun (g2 : Graph) => 1 ≤ incomingLen g2.nodes q.id) _
    (fun s p hs => addQuestEdges_nodes_pres _ hmono s p hs) _ _ ?_
  refine addQuestEdges_wires _ q hpr ?_
  refine foldl_pres (fun (g2 : Graph) => (mapGet g2.nodes q.id).isSome) _
    (fun s p hs => addQuestEdges_nodes_pres _ hsome s p hs) _ _ ?_
  show (mapGet (dialogues.foldl _ ((l1 ++ q :: l2).foldl _ (arcs.foldl _ []))) q.id).isSome
  refine foldl_pres (fun (m : List (String × GNode)) => (mapGet m q.id).isSome) _
    (fun m d hm => isSome_mapGet_mapSet _ _ _ _ hm) _ _ ?_
  rw [List.foldl_append, List.foldl_cons]
  refine foldl_pres (fun (m : List (String × GNode)) => (mapGet m q.id).isSome) _
    (fun m p hm => isSome_mapGet_mapSet _ _ _ _ hm) _ _ ?_
  dsimp only
  rw [mapGet_mapSet_self]
  rfl

theorem detectBrokenChains_eq (g : Graph) :
    detectBrokenChains g = g.nodes.flatMap (fun p =>
      if brokenChainFlag p then
        [{ type := ErrType.broken_chain, nodeId := some p.1, severity := Severity.error }]
      else []) := by
  unfold detectBrokenChains
  suffices h : ∀ (l : List (String × GNode)) (init : List VError),
      (l.foldl (fun acc p =>
        if p.2.type == NodeType.quest && p.2.incoming == [] then
          match p.2.data with
          | .quest q =>
            if q.prerequisites.getD [] != [] then
              acc ++ [{ type := .broken_chain, nodeId := some p.1, severity := .error }]
            else acc
          | _ => acc
        else acc) init) = init ++ l.flatMap (fun p =>
      if brokenChainFlag p then
        [{ type := ErrType.broken_chain, nodeId := some p.1, severity := Severity.error }]
      else []) by
    simpa using h g.nodes []
  intro l
  induction l with
  | nil => intro init; simp
  | cons p ps ih =>
    intro init
    rw [List.foldl_cons, ih, List.flatMap_cons]
    have hstep : (if p.2.type == NodeType.quest && p.2.incoming == [] then
        match p.2.data with
        | NodeData.quest q =>
          if q.prerequisites.getD [] != [] then
            init ++ [{ type := .broken_chain, nodeId := some p.1, severity := .error }]
          else init
        | _ => init
      else init) = init ++ (if brokenChainFlag p then
        [{ type := ErrType.broken_chain, nodeId := some p.1, severity := Severity.error }]
      else []) := by
      unfold brokenChainFlag
      cases hA : p.2.type == NodeType.quest with
      | false => simp [hA]
      | true =>
        cases hB : p.2.incoming == ([] : List String) with
        | false => simp [hA, hB]
        | true =>
          cases hD : p.2.data with
          | quest q =>
            cases hC : q.prerequisites.getD [] != [] with
            | false => simp [hA, hB, hD, hC]
            | true => simp [hA, hB, hD, hC]
          | arc a => simp [hA, hB, hD]
          | dlg d => simp [hA, hB, hD]
    rw [hstep, List.append_assoc]

theorem detectBrokenChains_buildGraph (arcs : List StoryArcRec) (quests : List QuestRec)
    (dialogues : List DialogueRec) :
    detectBrokenChains (buildGraph arcs quests dialogues) = [] := by
  rw [detectBrokenChains_eq]
  rw [List.flatMap_eq_nil_iff]
  intro p hp
  set g := buildGraph arcs quests dialogues with hg
  cases hflag : brokenChainFlag p with
  | false => simp [hflag]
  | true =>
    exfalso
    have hget : mapGet g.nodes p.1 = some p.2 := by
      rcases p with ⟨k, n⟩
      exact mapGet_of_mem_nodup _ (buildGraph_keys_nodup arcs quests dialogues) k n hp
    unfold brokenChainFlag at hflag
    rw [Bool.and_eq_true, Bool.and_eq_true] at hflag
    rcases hflag with ⟨⟨hA, hB⟩, hC⟩
    rcases buildGraph_quest_data arcs quests dialogues p.1 p.2 hget (beq_iff_eq.mp hA) with
      ⟨q, hqmem, hqid, hdata⟩
    have hprereqs : q.prerequisites.getD [] ≠ [] := by
      rw [hdata] at hC
      simpa using hC
    have hwired := buildGraph_wired arcs quests dialogues q hqmem hprereqs
    rw [hqid] at hwired
    unfold incomingLen at hwired
    rw [← hg, hget] at hwired
    have hempty : p.2.incoming = [] := beq_iff_eq.mp hB
    simp [hempty] at hwired

/-- C4 (amended): detectBrokenChains flags exactly the quest nodes
whose incoming adjacency list is empty (edges of every kind counted)
while their record declares a prerequisite; and because buildGraph
appends an incoming entry to a quest node for every prerequisite it
declares, whole-graph validation on a built graph never produces a
broken_chain finding — in particular not for a quest whose declared
prerequisite has no Prerequisite-kind edge in the edge map (the edge
can be overwritten there by an outcome edge that shares its id). -/
theorem c4_amended (arcs : List StoryArcRec) (quests : List QuestRec)
    (dialogues : List DialogueRec) :
    (∀ g : Graph, detectBrokenChains g = g.nodes.flatMap (fun p =>
      if brokenChainFlag p then
        [{ type := ErrType.broken_chain, nodeId := some p.1, severity := Severity.error }]
      else [])) ∧
    detectBrokenChains (buildGraph arcs quests dialogues) = [] ∧
    (((validateStoryGraph arcs quests dialogues).errors ++
      (validateStoryGraph arcs quests dialogues).warnings).filter
        (fun e => e.type == ErrType.broken_chain)) = [] := by
  refine ⟨detectBrokenChains_eq, detectBrokenChains_buildGraph arcs quests dialogues, ?_⟩
  obtain ⟨he, hw⟩ := validateStoryGraph_parts arcs quests dialogues
  rw [List.filter_append, he, hw, detectBrokenChains_buildGraph arcs quests dialogues]
  simp only [List.filter_append, List.filter_nil, List.append_nil, List.nil_append]
  rw [filter_type_eq_nil _ _ (fun x hx => by
      rw [(mem_detectUnreachableNodes (buildGraph arcs quests dialogues) x hx).1]; simp),
    filter_type_eq_nil _ _ (fun x hx => by
      rw [(mem_detectCircularDependencies (buildGraph arcs quests dialogues) x hx).1]; simp),
    filter_type_eq_nil _ _ (fun x hx => by
      rw [(mem_validatePrerequisites (buildGraph arcs quests dialogues) x hx).1]; simp),
    filter_type_eq_nil _ _ (fun x hx => by
      rw [(mem_validateConditions (buildGraph arcs quests dialogues) x hx).1]; simp),
    filter_type_eq_nil _ _ (fun x hx => by
      rw [(mem_detectOrphanNodes (buildGraph arcs quests dialogues) x hx).1]; simp)]
  simp

/-- Counterexample for C4: quest B declares prerequisite A, and the
built graph holds zero Prerequisite-kind edges into B (the outcome
edge of quest A overwrote the prerequisite edge under the shared edge
id A_to_B), yet whole-graph validation emits no broken_chain finding,
because the check looks at the incoming adjacency list, which counts
edges of every kind and received entries for the declared
prerequisite. -/
theorem c4_counterexample :
    qB.prerequisites.getD [] ≠ [] ∧
    ((buildGraph [] [qB, qA] []).edges.filter
      (fun p => p.2.type == "prerequisite" && p.2.target == "B")).length = 0 ∧
    ((mapGet (buildGraph [] [qB, qA] []).nodes "B").map (fun n => n.type))
      = some NodeType.quest ∧
    (((validateStoryGraph [] [qB, qA] []).errors ++
      (validateStoryGraph [] [qB, qA] []).warnings).filter
        (fun e => e.type == ErrType.broken_chain)) = [] := by
  refine ⟨?_, ?_, ?_, ?_⟩ <;> with_unfolding_all decide

/- ===================== C3: dfs basic lemmas ===================== -/

theorem containsStr (l : List String) (a : String) : l.contains a = true ↔ a ∈ l :=
  List.elem_iff

theorem containsStr_false (l : List String) (a : String) (h : l.contains a = false) : a ∉ l := by
  intro hm
  rw [(containsStr l a).mpr hm] at h
  cases h

theorem dfsVisit_zero (g : Graph) (n : String) (st : DfsSt) :
    dfsVisit g 0 n st = (false, st) := rfl

theorem dfsVisit_stack_hit (g : Graph) (f : ℕ) (n : String) (st : DfsSt)
    (h : st.stack.contains n = true) : dfsVisit g (f + 1) n st = (true, st) := by
  rw [dfsVisit, if_pos h]

theorem dfsVisit_visited_hit (g : Graph) (f : ℕ) (n : String) (st : DfsSt)
    (h1 : st.stack.contains n = false) (h2 : st.visited.contains n = true) :
    dfsVisit g (f + 1) n st = (false, st) := by
  rw [dfsVisit, if_neg (by rw [h1]; exact Bool.false_ne_true), if_pos h2]

theorem dfs_visited_mono (g : Graph) :
    ∀ f, (∀ n st, st.visited ⊆ (dfsVisit g f n st).2.visited) ∧
      (∀ ms st, st.visited ⊆ (dfsSucc g f ms st).2.visited) := by
  intro f
  induction f with
  | zero =>
    constructor
    · intro n st
      rw [dfsVisit_zero]
      exact fun x hx => hx
    · intro ms
      induction ms with
      | nil => intro st; rw [dfsSucc]; exact fun x hx => hx
      | cons m ms ihm =>
        intro st
        rw [dfsSucc, dfsVisit_zero]
        exact ihm st
  | succ f ih =>
    have hvisit : ∀ n st, st.visited ⊆ (dfsVisit g (f + 1) n st).2.visited := by
      intro n st
      cases h1 : st.stack.contains n with
      | true =>
        rw [dfsVisit_stack_hit _ _ _ _ h1]
        exact fun x hx => hx
      | false =>
        cases h2 : st.visited.contains n with
        | true =>
          rw [dfsVisit_visited_hit _ _ _ _ h1 h2]
          exact fun x hx => hx
        | false =>
          rw [dfsVisit_push g f n st h1 h2]
          rcases hr : dfsSucc g f (outgoingOf g n) ⟨n :: st.visited, n :: st.stack⟩ with ⟨b, st2⟩
          have hsub := ih.2 (outgoingOf g n) ⟨n :: st.visited, n :: st.stack⟩
          rw [hr] at hsub
          have hsub2 : st.visited ⊆ st2.visited :=
            fun x hx => hsub (List.mem_cons_of_mem _ hx)
          cases b
          · exact hsub2
          · exact hsub2
    refine ⟨hvisit, ?_⟩
    intro ms
    induction ms with
    | nil => intro st; rw [dfsSucc]; exact fun x hx => hx
    | cons m ms ihm =>
      intro st
      rw [dfsSucc]
      rcases h : dfsVisit g (f + 1) m st with ⟨b, st2⟩
      have hv : st.visited ⊆ st2.visited := by
        have := hvisit m st
        rw [h] at this
        exact this
      cases b
      · exact fun x hx => ihm st2 (hv hx)
      · exact hv

theorem dfs_stack_false (g : Graph) :
    ∀ f, (∀ n st st2, dfsVisit g f n st = (false, st2) → st2.stack = st.stack) ∧
      (∀ ms st st2, dfsSucc g f ms st = (false, st2) → st2.stack = st.stack) := by
  intro f
  induction f with
  | zero =>
    constructor
    · intro n st st2 h
      rw [dfsVisit_zero] at h
      cases h
      rfl
    · intro ms
      induction ms with
      | nil =>
        intro st st2 h
        rw [dfsSucc] at h
        cases h
        rfl
      | cons m ms ihm =>
        intro st st2 h
        rw [dfsSucc, dfsVisit_zero] at h
        exact ihm st st2 h
  | succ f ih =>
    have hvisit : ∀ n st st2, dfsVisit g (f + 1) n st = (false, st2) → st2.stack = st.stack := by
      intro n st st2 h
      cases h1 : st.stack.contains n with
      | true =>
        rw [dfsVisit_stack_hit _ _ _ _ h1] at h
        cases h
      | false =>
        cases h2 : st.visited.contains n with
        | true =>
          rw [dfsVisit_visited_hit _ _ _ _ h1 h2] at h
          cases h
          rfl
        | false =>
          rw [dfsVisit_push g f n st h1 h2] at h
          rcases hr : dfsSucc g f (outgoingOf g n) ⟨n :: st.visited, n :: st.stack⟩ with ⟨b, stm⟩
          rw [hr] at h
          cases b
          · cases h
            have hst := ih.2 _ _ _ hr
            show stm.stack.erase n = st.stack
            rw [hst]
            exact List.erase_cons_head n st.stack
          · cases h
    refine ⟨hvisit, ?_⟩
    intro ms
    induction ms with
    | nil =>
      intro st st2 h
      rw [dfsSucc] at h
      cases h
      rfl
    | cons m ms ihm =>
      intro st st2 h
      rw [dfsSucc] at h
      rcases hr : dfsVisit g (f + 1) m st with ⟨b, stm⟩
      rw [hr] at h
      cases b
      · rw [ihm stm st2 h]
        exact hvisit m st stm hr
      · cases h

/- ===================== C3: soundness ===================== -/

theorem chain_to_head (g : Graph) :
    ∀ (l : List String), StackChain g l → ∀ x ∈ l, ∀ hd tl, l = hd :: tl →
      Relation.ReflTransGen (stepRel g) x hd := by
  intro l
  induction l with
  | nil => intro _ x hx; cases hx
  | cons b rest ih =>
    intro hch x hx hd tl heq
    injection heq with hbd htl
    subst hbd
    subst htl
    rcases List.mem_cons.mp hx with rfl | hxr
    · exact Relation.ReflTransGen.refl
    · cases rest with
      | nil => cases hxr
      | cons a rest2 =>
        have hstep : stepRel g a b := hch.1
        exact Relation.ReflTransGen.tail (ih hch.2 x hxr a rest2 rfl) hstep

theorem dfs_sound (g : Graph) :
    ∀ f, (∀ n st st2, StackChain g st.stack →
        (st.stack = [] ∨ ∃ hd tl, st.stack = hd :: tl ∧ stepRel g hd n) →
        dfsVisit g f n st = (true, st2) → GraphHasCycle g) ∧
      (∀ ms st st2, StackChain g st.stack →
        (∃ hd tl, st.stack = hd :: tl ∧ ∀ m ∈ ms, stepRel g hd m) →
        dfsSucc g f ms st = (true, st2) → GraphHasCycle g) := by
  intro f
  induction f with
  | zero =>
    have hv : ∀ n st st2, StackChain g st.stack →
        (st.stack = [] ∨ ∃ hd tl, st.stack = hd :: tl ∧ stepRel g hd n) →
        dfsVisit g 0 n st = (true, st2) → GraphHasCycle g := by
      intro n st st2 _ _ h
      rw [dfsVisit_zero] at h
      simp at h
    refine ⟨hv, ?_⟩
    intro ms
    induction ms with
    | nil =>
      intro st st2 _ _ h
      rw [dfsSucc] at h
      simp at h
    | cons m ms ihm =>
      intro st st2 hch hlink h
      rw [dfsSucc, dfsVisit_zero] at h
      rcases hlink with ⟨hd, tl, hstack, hall⟩
      exact ihm st st2 hch
        ⟨hd, tl, hstack, fun m2 hm2 => hall m2 (List.mem_cons_of_mem _ hm2)⟩ h
  | succ f ih =>
    have hvisit : ∀ n st st2, StackChain g st.stack →
        (st.stack = [] ∨ ∃ hd tl, st.stack = hd :: tl ∧ stepRel g hd n) →
        dfsVisit g (f + 1) n st = (true, st2) → GraphHasCycle g := by
      intro n st st2 hch hlink h
      cases h1 : st.stack.contains n with
      | true =>
        have hnst : n ∈ st.stack := (containsStr _ _).mp h1
        rcases hlink with hemp | ⟨hd, tl, hstack, hstep⟩
        · rw [hemp] at hnst
          cases hnst
        · have hrt := chain_to_head g st.stack hch n hnst hd tl hstack
          exact ⟨n, Relation.TransGen.tail' hrt hstep⟩
      | false =>
        cases h2 : st.visited.contains n with
        | true =>
          rw [dfsVisit_visited_hit _ _ _ _ h1 h2] at h
          simp at h
        | false =>
          rw [dfsVisit_push g f n st h1 h2] at h
          rcases hr : dfsSucc g f (outgoingOf g n) ⟨n :: st.visited, n :: st.stack⟩ with ⟨b, stm⟩
          rw [hr] at h
          cases b with
          | false => simp at h
          | true =>
            refine ih.2 (outgoingOf g n) ⟨n :: st.visited, n :: st.stack⟩ stm ?_ ?_ hr
            · show StackChain g (n :: st.stack)
              rcases hlink with hemp | ⟨hd, tl, hstack, hstep⟩
              · rw [hemp]
                trivial
              · rw [hstack]
                exact ⟨hstep, hstack ▸ hch⟩
            · exact ⟨n, st.stack, rfl, fun m hm => hm⟩
    refine ⟨hvisit, ?_⟩
    intro ms
    induction ms with
    | nil =>
      intro st st2 _ _ h
      rw [dfsSucc] at h
      simp at h
    | cons m ms ihm =>
      intro st st2 hch hlink h
      rw [dfsSucc] at h
      rcases hr : dfsVisit g (f + 1) m st with ⟨b, stm⟩
      rw [hr] at h
      rcases hlink with ⟨hd, tl, hstack, hall⟩
      cases b with
      | true =>
        exact hvisit m st stm hch
          (Or.inr ⟨hd, tl, hstack, hall m (List.mem_cons_self _ _)⟩) hr
      | false =>
        have hst : stm.stack = st.stack := (dfs_stack_false g (f + 1)).1 m st stm hr
        refine ihm stm st2 ?_ ?_ h
        · rw [hst]
          exact hch
        · exact ⟨hd, tl, by rw [hst, hstack], fun m2 hm2 => hall m2 (List.mem_cons_of_mem _ hm2)⟩

/- ===================== C3: fuel measure lemmas ===================== -/

theorem contains_false_of_not_mem (l : List String) (a : String) (h : a ∉ l) :
    l.contains a = false := by
  cases hc : l.contains a with
  | false => rfl
  | true => exact absurd ((containsStr _ _).mp hc) h

theorem contains_true_of_mem (l : List String) (a : String) (h : a ∈ l) :
    l.contains a = true := (containsStr _ _).mpr h

theorem filter_length_mono {α : Type} (p q : α → Bool) (himp : ∀ x, q x = true → p x = true) :
    ∀ l : List α, (l.filter q).length ≤ (l.filter p).length := by
  intro l
  induction l with
  | nil => simp
  | cons a l ih =>
    cases hq : q a with
    | true =>
      rw [List.filter_cons_of_pos hq, List.filter_cons_of_pos (himp a hq)]
      simpa using ih
    | false =>
      rw [List.filter_cons_of_neg (by simp [hq])]
      cases hp : p a with
      | true =>
        rw [List.filter_cons_of_pos hp]
        exact le_trans ih (Nat.le_succ _)
      | false =>
        rw [List.filter_cons_of_neg (by simp [hp])]
        exact ih

theorem filter_length_lt {α : Type} (p q : α → Bool) (himp : ∀ x, q x = true → p x = true)
    (a : α) (hpa : p a = true) (hqa : q a = false) :
    ∀ l : List α, a ∈ l → (l.filter q).length < (l.filter p).length := by
  intro l
  induction l with
  | nil => intro h; cases h
  | cons b l ih =>
    intro hmem
    rcases List.mem_cons.mp hmem with rfl | hbl
    · rw [List.filter_cons_of_pos hpa, List.filter_cons_of_neg (by simp [hqa])]
      exact Nat.lt_succ_of_le (filter_length_mono p q himp l)
    · cases hq : q b with
      | true =>
        rw [List.filter_cons_of_pos hq, List.filter_cons_of_pos (himp b hq)]
        simpa using ih hbl
      | false =>
        rw [List.filter_cons_of_neg (by simp [hq])]
        cases hp : p b with
        | true =>
          rw [List.filter_cons_of_pos hp]
          exact Nat.lt_succ_of_le (le_of_lt (ih hbl))
        | false =>
          rw [List.filter_cons_of_neg (by simp [hp])]
          exact ih hbl

theorem muV_lt_push (g : Graph) (n : String) (vis : List String)
    (hn : n ∈ uni g) (hnv : vis.contains n = false) : muV g (n :: vis) < muV g vis := by
  refine filter_length_lt _ _ ?_ n (by rw [hnv]; rfl) ?_ (uni g) hn
  · intro x hx
    have hxmem : x ∉ n :: vis := by
      intro hm
      rw [contains_true_of_mem _ _ hm] at hx
      cases hx
    have : x ∉ vis := fun hv => hxmem (List.mem_cons_of_mem _ hv)
    rw [contains_false_of_not_mem _ _ this]
    rfl
  · rw [contains_true_of_mem (n :: vis) n (List.mem_cons_self _ _)]
    rfl

theorem muV_mono (g : Graph) (vis vis2 : List String) (h : vis ⊆ vis2) :
    muV g vis2 ≤ muV g vis := by
  refine filter_length_mono _ _ ?_ (uni g)
  intro x hx
  have hxm : x ∉ vis2 := by
    intro hm
    rw [contains_true_of_mem _ _ hm] at hx
    cases hx
  have : x ∉ vis := fun hv => hxm (h hv)
  rw [contains_false_of_not_mem _ _ this]
  rfl

theorem muV_le (g : Graph) (vis : List String) : muV g vis ≤ (uni g).length :=
  List.length_filter_le _ _

theorem mem_uni_of_key (g : Graph) (k : String) (hk : k ∈ g.nodes.map Prod.fst) :
    k ∈ uni g := by
  unfold uni
  rw [List.mem_dedup]
  exact List.mem_append.mpr (Or.inl hk)

theorem mapGet_some_mem (g : Graph) (k : String) (n : GNode) (h : mapGet g.nodes k = some n) :
    ∃ p, p ∈ g.nodes ∧ p.1 = k ∧ p.2 = n := by
  unfold mapGet at h
  rcases Option.map_eq_some'.mp h with ⟨p, hfind, hp2⟩
  have hpred := List.find?_some hfind
  exact ⟨p, List.mem_of_find?_eq_some hfind, beq_iff_eq.mp hpred, hp2⟩

theorem mem_uni_of_outgoing (g : Graph) (k m : String) (hm : m ∈ outgoingOf g k) :
    m ∈ uni g := by
  unfold outgoingOf at hm
  cases hg : mapGet g.nodes k with
  | none => rw [hg] at hm; cases hm
  | some node =>
    rw [hg] at hm
    rcases mapGet_some_mem g k node hg with ⟨p, hpmem, _, hp2⟩
    unfold uni
    rw [List.mem_dedup]
    refine List.mem_append.mpr (Or.inr ?_)
    exact List.mem_flatMap.mpr ⟨p, hpmem, by rw [hp2]; exact hm⟩

theorem key_mem_of_outgoing_ne (g : Graph) (a : String) (h : outgoingOf g a ≠ []) :
    a ∈ g.nodes.map Prod.fst := by
  unfold outgoingOf at h
  cases hg : mapGet g.nodes a with
  | none => rw [hg] at h; exact absurd rfl h
  | some node =>
    rcases mapGet_some_mem g a node hg with ⟨p, hpmem, hp1, _⟩
    exact List.mem_map.mpr ⟨p, hpmem, hp1⟩

/- ===================== C3: completeness ===================== -/

theorem dfs_complete (g : Graph) :
    ∀ f, (∀ n st st2, n ∈ uni g → muV g st.visited < f → Cinv g st →
        dfsVisit g f n st = (false, st2) →
        Cinv g st2 ∧ st2.stack = st.stack ∧ st.visited ⊆ st2.visited ∧
          n ∈ st2.visited ∧ n ∉ st2.stack) ∧
      (∀ ms st st2, (∀ m ∈ ms, m ∈ uni g) → muV g st.visited < f → Cinv g st →
        dfsSucc g f ms st = (false, st2) →
        Cinv g st2 ∧ st2.stack = st.stack ∧ st.visited ⊆ st2.visited ∧
          ∀ m ∈ ms, m ∈ st2.visited ∧ m ∉ st2.stack) := by
  intro f
  induction f with
  | zero =>
    constructor
    · intro n st st2 _ hmu
      exact absurd hmu (Nat.not_lt_zero _)
    · intro ms st st2 _ hmu
      exact absurd hmu (Nat.not_lt_zero _)
  | succ f ih =>
    have hvisit : ∀ n st st2, n ∈ uni g → muV g st.visited < f + 1 → Cinv g st →
        dfsVisit g (f + 1) n st = (false, st2) →
        Cinv g st2 ∧ st2.stack = st.stack ∧ st.visited ⊆ st2.visited ∧
          n ∈ st2.visited ∧ n ∉ st2.stack := by
      intro n st st2 hn hmu hinv h
      cases h1 : st.stack.contains n with
      | true =>
        rw [dfsVisit_stack_hit _ _ _ _ h1] at h
        cases h
      | false =>
        cases h2 : st.visited.contains n with
        | true =>
          rw [dfsVisit_visited_hit _ _ _ _ h1 h2] at h
          cases h
          exact ⟨hinv, rfl, fun x hx => hx, (containsStr _ _).mp h2, containsStr_false _ _ h1⟩
        | false =>
          rw [dfsVisit_push g f n st h1 h2] at h
          rcases hr : dfsSucc g f (outgoingOf g n) ⟨n :: st.visited, n :: st.stack⟩ with ⟨b, stm⟩
          rw [hr] at h
          cases b with
          | true => cases h
          | false =>
            cases h
            unfold Cinv at hinv
            obtain ⟨hvn, hsn, hss, F, hFnd, hFmem, hFsa⟩ := hinv
            have hnv : n ∉ st.visited := containsStr_false _ _ h2
            have hns : n ∉ st.stack := containsStr_false _ _ h1
            have hinvp : Cinv g ⟨n :: st.visited, n :: st.stack⟩ := by
              unfold Cinv
              refine ⟨List.nodup_cons.mpr ⟨hnv, hvn⟩, List.nodup_cons.mpr ⟨hns, hsn⟩,
                ?_, F, hFnd, ?_, hFsa⟩
              · intro x hx
                rcases List.mem_cons.mp hx with rfl | hx2
                · exact List.mem_cons_self _ _
                · exact List.mem_cons_of_mem _ (hss x hx2)
              · intro x
                constructor
                · intro hxF
                  rcases (hFmem x).mp hxF with ⟨hxv, hxs⟩
                  refine ⟨List.mem_cons_of_mem _ hxv, ?_⟩
                  intro hc
                  rcases List.mem_cons.mp hc with rfl | hc2
                  · exact hnv hxv
                  · exact hxs hc2
                · rintro ⟨hxv, hxs⟩
                  have hxn : x ≠ n := fun he => hxs (he ▸ List.mem_cons_self _ _)
                  rcases List.mem_cons.mp hxv with rfl | hxv2
                  · exact absurd rfl hxn
                  · exact (hFmem x).mpr ⟨hxv2, fun hc => hxs (List.mem_cons_of_mem _ hc)⟩
            have hmup : muV g (n :: st.visited) < f := by
              have hlt := muV_lt_push g n st.visited hn h2
              omega
            have hms : ∀ m ∈ outgoingOf g n, m ∈ uni g :=
              fun m hm => mem_uni_of_outgoing g n m hm
            rcases ih.2 (outgoingOf g n) ⟨n :: st.visited, n :: st.stack⟩ stm hms hmup hinvp hr
              with ⟨hinvm, hstk2, hsub2, hallm⟩
            have hstk2p : stm.stack = n :: st.stack := hstk2
            have hsub2p : n :: st.visited ⊆ stm.visited := hsub2
            have hnstm : n ∈ stm.visited := hsub2p (List.mem_cons_self _ _)
            have herase : stm.stack.erase n = st.stack := by
              rw [hstk2p]
              exact List.erase_cons_head n st.stack
            unfold Cinv at hinvm
            obtain ⟨hvn2, hsn2, hss2, F2, hF2nd, hF2mem, hF2sa⟩ := hinvm
            refine ⟨?_, ?_, ?_, ?_, ?_⟩
            · unfold Cinv
              refine ⟨hvn2, ?_, ?_, n :: F2, ?_, ?_, ?_⟩
              · show (stm.stack.erase n).Nodup
                rw [herase]
                exact hsn
              · intro x hx
                show x ∈ stm.visited
                have hxp : x ∈ stm.stack.erase n := hx
                rw [herase] at hxp
                exact hsub2p (List.mem_cons_of_mem _ (hss x hxp))
              · refine List.nodup_cons.mpr ⟨?_, hF2nd⟩
                intro hnF2
                exact ((hF2mem n).mp hnF2).2 (by rw [hstk2p]; exact List.mem_cons_self _ _)
              · intro x
                show x ∈ n :: F2 ↔ (x ∈ stm.visited ∧ x ∉ stm.stack.erase n)
                rw [herase]
                constructor
                · intro hx
                  rcases List.mem_cons.mp hx with rfl | hxF2
                  · exact ⟨hnstm, hns⟩
                  · rcases (hF2mem x).mp hxF2 with ⟨hxv, hxs⟩
                    refine ⟨hxv, fun hc => hxs ?_⟩
                    rw [hstk2p]
                    exact List.mem_cons_of_mem _ hc
                · rintro ⟨hxv, hxs⟩
                  by_cases hxn : x = n
                  · exact hxn ▸ List.mem_cons_self _ _
                  · refine List.mem_cons_of_mem _ ((hF2mem x).mpr ⟨hxv, ?_⟩)
                    rw [hstk2p]
                    intro hc
                    rcases List.mem_cons.mp hc with he | hc2
                    · exact hxn he
                    · exact hxs hc2
              · refine ⟨?_, hF2sa⟩
                intro m hm
                exact (hF2mem m).mpr (hallm m hm)
            · show stm.stack.erase n = st.stack
              exact herase
            · intro x hx
              exact hsub2p (List.mem_cons_of_mem _ hx)
            · exact hnstm
            · show n ∉ stm.stack.erase n
              rw [herase]
              exact hns
    refine ⟨hvisit, ?_⟩
    intro ms
    induction ms with
    | nil =>
      intro st st2 _ _ hinv h
      rw [dfsSucc] at h
      cases h
      exact ⟨hinv, rfl, fun x hx => hx, fun m hm => absurd hm (List.not_mem_nil m)⟩
    | cons m ms ihm =>
      intro st st2 hmem hmu hinv h
      rw [dfsSucc] at h
      rcases hr : dfsVisit g (f + 1) m st with ⟨b, stm⟩
      rw [hr] at h
      cases b with
      | true => cases h
      | false =>
        rcases hvisit m st stm (hmem m (List.mem_cons_self _ _)) hmu hinv hr with
          ⟨hinvm, hstkm, hsubm, hmv, hmns⟩
        have hmum : muV g stm.visited < f + 1 :=
          lt_of_le_of_lt (muV_mono g st.visited stm.visited hsubm) hmu
        rcases ihm stm st2 (fun x hx => hmem x (List.mem_cons_of_mem _ hx)) hmum hinvm h with
          ⟨hinv2, hstk2, hsub2, hall2⟩
        refine ⟨hinv2, hstk2.trans hstkm, fun x hx => hsub2 (hsubm hx), ?_⟩
        intro x hx
        rcases List.mem_cons.mp hx with rfl | hx2
        · refine ⟨hsub2 hmv, ?_⟩
          rw [hstk2]
          exact hmns
        · exact hall2 x hx2

theorem detectCircularDependencies_eq (g : Graph) :
    detectCircularDependencies g =
      (g.nodes.foldl (circStep g ((uni g).length + 1)) ([], ⟨[], []⟩)).1 := rfl

theorem circStep_prop (g : Graph) (acc : List VError × DfsSt) (p : String × GNode)
    (hp : p.1 ∈ uni g) (hacc : CircAcc g acc) :
    CircAcc g (circStep g ((uni g).length + 1) acc p) ∧
      acc.2.visited ⊆ (circStep g ((uni g).length + 1) acc p).2.visited ∧
      ((circStep g ((uni g).length + 1) acc p).1 = [] →
        acc.1 = [] ∧ p.1 ∈ (circStep g ((uni g).length + 1) acc p).2.visited) := by
  unfold CircAcc at hacc
  unfold circStep
  cases hv : acc.2.visited.contains p.1 with
  | true =>
    rw [if_pos rfl]
    unfold CircAcc
    exact ⟨hacc, fun x hx => hx, fun he => ⟨he, (containsStr _ _).mp hv⟩⟩
  | false =>
    rw [if_neg Bool.false_ne_true]
    rcases hd : dfsVisit g ((uni g).length + 1) p.1 acc.2 with ⟨b, st2⟩
    have hvm : acc.2.visited ⊆ st2.visited := by
      have hmono := (dfs_visited_mono g ((uni g).length + 1)).1 p.1 acc.2
      rw [hd] at hmono
      exact hmono
    cases b with
    | true =>
      have hcyc : GraphHasCycle g := by
        by_cases hA : acc.1 = []
        · obtain ⟨hstk, hcinv⟩ := hacc.2 hA
          have hchain : StackChain g acc.2.stack := by
            rw [hstk]
            exact trivial
          exact (dfs_sound g ((uni g).length + 1)).1 p.1 acc.2 st2 hchain (Or.inl hstk) hd
        · exact hacc.1 hA
      unfold CircAcc
      refine ⟨⟨fun _ => hcyc, ?_⟩, hvm, ?_⟩
      · intro he
        simp at he
      · intro he
        simp at he
    | false =>
      by_cases hA : acc.1 = []
      · obtain ⟨hstk, hcinv⟩ := hacc.2 hA
        have hmu : muV g acc.2.visited < (uni g).length + 1 :=
          Nat.lt_succ_of_le (muV_le g _)
        rcases (dfs_complete g ((uni g).length + 1)).1 p.1 acc.2 st2 hp hmu hcinv hd with
          ⟨hcinv2, hstk2, _, hpv, _⟩
        unfold CircAcc
        exact ⟨⟨fun hne => absurd hA hne, fun _ => ⟨hstk2.trans hstk, hcinv2⟩⟩, hvm,
          fun _ => ⟨hA, hpv⟩⟩
      · unfold CircAcc
        exact ⟨⟨fun _ => hacc.1 hA, fun he => absurd he hA⟩, hvm, fun he => absurd he hA⟩

theorem circFold (g : Graph) :
    ∀ l : List (String × GNode), (∀ p ∈ l, p.1 ∈ uni g) →
      ∀ acc, CircAcc g acc →
        CircAcc g (l.foldl (circStep g ((uni g).length + 1)) acc) ∧
        acc.2.visited ⊆ (l.foldl (circStep g ((uni g).length + 1)) acc).2.visited ∧
        ((l.foldl (circStep g ((uni g).length + 1)) acc).1 = [] →
          acc.1 = [] ∧
            ∀ p ∈ l, p.1 ∈ (l.foldl (circStep g ((uni g).length + 1)) acc).2.visited) := by
  intro l
  induction l with
  | nil =>
    intro _ acc hacc
    exact ⟨hacc, fun x hx => hx, fun he => ⟨he, fun p hp => absurd hp (List.not_mem_nil p)⟩⟩
  | cons p l ih =>
    intro hmem acc hacc
    rw [List.foldl_cons]
    rcases circStep_prop g acc p (hmem p (List.mem_cons_self _ _)) hacc with
      ⟨hacc1, hsub1, hlast1⟩
    rcases ih (fun q hq => hmem q (List.mem_cons_of_mem _ hq)) _ hacc1 with
      ⟨hacc2, hsub2, hlast2⟩
    refine ⟨hacc2, fun x hx => hsub2 (hsub1 hx), ?_⟩
    intro he
    rcases hlast2 he with ⟨hstep0, hrest⟩
    rcases hlast1 hstep0 with ⟨hacc0, hpv⟩
    refine ⟨hacc0, ?_⟩
    intro q hq
    rcases List.mem_cons.mp hq with rfl | hq2
    · exact hsub2 hpv
    · exact hrest q hq2

theorem succAfter_step (g : Graph) :
    ∀ F : List String, F.Nodup → SuccAfter g F → ∀ a b, a ∈ F → stepRel g a b →
      b ∈ F ∧ idxOf F a < idxOf F b := by
  intro F
  induction F with
  | nil =>
    intro _ _ a b ha
    cases ha
  | cons x rest ih =>
    intro hnd hsa a b ha hab
    have hxnr : x ∉ rest := (List.nodup_cons.mp hnd).1
    have hndr : rest.Nodup := (List.nodup_cons.mp hnd).2
    rcases List.mem_cons.mp ha with rfl | har
    · have hbr : b ∈ rest := hsa.1 b hab
      have hbx : b ≠ a := fun he => hxnr (he ▸ hbr)
      refine ⟨List.mem_cons_of_mem _ hbr, ?_⟩
      rw [idxOf, if_pos rfl, idxOf, if_neg (Ne.symm hbx)]
      exact Nat.succ_pos _
    · have hax : a ≠ x := fun he => hxnr (he ▸ har)
      rcases ih hndr hsa.2 a b har hab with ⟨hbr, hlt⟩
      have hbx : b ≠ x := fun he => hxnr (he ▸ hbr)
      refine ⟨List.mem_cons_of_mem _ hbr, ?_⟩
      rw [idxOf, if_neg (Ne.symm hax), idxOf, if_neg (Ne.symm hbx)]
      exact Nat.succ_lt_succ hlt

theorem succAfter_transGen (g : Graph) (F : List String) (hnd : F.Nodup)
    (hsa : SuccAfter g F) :
    ∀ a b, Relation.TransGen (stepRel g) a b → a ∈ F → b ∈ F ∧ idxOf F a < idxOf F b := by
  intro a b htg ha
  induction htg with
  | single hab => exact succAfter_step g F hnd hsa _ _ ha hab
  | tail hprev hstep ih =>
    rcases ih with ⟨hbF, hlt1⟩
    rcases succAfter_step g F hnd hsa _ _ hbF hstep with ⟨hcF, hlt2⟩
    exact ⟨hcF, lt_trans hlt1 hlt2⟩

theorem transGen_has_out (g : Graph) (a b : String)
    (h : Relation.TransGen (stepRel g) a b) : ∃ c, c ∈ outgoingOf g a := by
  induction h with
  | single hab => exact ⟨_, hab⟩
  | tail hprev hstep ih => exact ih

theorem no_cycle_of_finish_order (g : Graph) (F : List String) (hnd : F.Nodup)
    (hsa : SuccAfter g F) (hkeys : ∀ k, k ∈ g.nodes.map Prod.fst → k ∈ F) :
    ¬ GraphHasCycle g := by
  rintro ⟨n, htg⟩
  have hne : outgoingOf g n ≠ [] := by
    rcases transGen_has_out g n n htg with ⟨c, hc⟩
    intro he
    rw [he] at hc
    cases hc
  have hnF : n ∈ F := hkeys n (key_mem_of_outgoing_ne g n hne)
  rcases succAfter_transGen g F hnd hsa n n htg hnF with ⟨_, hlt⟩
  exact lt_irrefl _ hlt

theorem detectCircular_ne_nil_iff (g : Graph) :
    detectCircularDependencies g ≠ [] ↔ GraphHasCycle g := by
  have hinit : CircAcc g ([], ⟨[], []⟩) := by
    unfold CircAcc
    constructor
    · intro h
      exact absurd rfl h
    · intro _
      refine ⟨rfl, ?_⟩
      unfold Cinv
      refine ⟨List.nodup_nil, List.nodup_nil, fun x hx => absurd hx (List.not_mem_nil x),
        [], List.nodup_nil, ?_, trivial⟩
      intro x
      constructor
      · intro hx
        exact absurd hx (List.not_mem_nil x)
      · rintro ⟨hx, _⟩
        exact absurd hx (List.not_mem_nil x)
  have hall : ∀ p ∈ g.nodes, p.1 ∈ uni g :=
    fun p hp => mem_uni_of_key g p.1 (List.mem_map.mpr ⟨p, hp, rfl⟩)
  rcases circFold g g.nodes hall ([], ⟨[], []⟩) hinit with ⟨hAcc, _, hlast⟩
  rw [detectCircularDependencies_eq]
  unfold CircAcc at hAcc
  constructor
  · intro hne
    exact hAcc.1 hne
  · intro hcyc hnil
    rcases hlast hnil with ⟨_, hvisall⟩
    have hfin := hAcc.2 hnil
    unfold Cinv at hfin
    rcases hfin with ⟨hstk, hvn, hsn, hss, F, hFnd, hFmem, hFsa⟩
    refine no_cycle_of_finish_order g F hFnd hFsa ?_ hcyc
    intro k hk
    rcases List.mem_map.mp hk with ⟨p, hp, rfl⟩
    refine (hFmem p.1).mpr ⟨hvisall p hp, ?_⟩
    rw [hstk]
    exact List.not_mem_nil _

/-- C3: whole-graph validation reports at least one circular_dependency
error if and only if the directed adjacency of the built graph contains
a cycle; in particular, for an acyclic graph it reports zero
circular_dependency errors. -/
theorem c3_circular_dependency_iff_cycle (arcs : List StoryArcRec) (quests : List QuestRec)
    (dialogues : List DialogueRec) :
    (∃ e ∈ (validateStoryGraph arcs quests dialogues).errors,
        e.type = ErrType.circular_dependency) ↔
      GraphHasCycle (buildGraph arcs quests dialogues) := by
  have hparts := (validateStoryGraph_parts arcs quests dialogues).1
  constructor
  · rintro ⟨e, he, het⟩
    rw [hparts] at he
    rcases List.mem_append.mp he with h1 | hcond
    · rcases List.mem_append.mp h1 with h2 | hpre
      · rcases List.mem_append.mp h2 with h3 | hc
        · rcases List.mem_append.mp h3 with hu | hb
          · exact absurd ((mem_detectUnreachableNodes _ e hu).1.symm.trans het) (by decide)
          · exact absurd ((mem_detectBrokenChains _ e hb).1.symm.trans het) (by decide)
        · exact (detectCircular_ne_nil_iff _).mp (List.ne_nil_of_mem hc)
      · exact absurd ((mem_validatePrerequisites _ e hpre).1.symm.trans het) (by decide)
    · exact absurd ((mem_validateConditions _ e hcond).1.symm.trans het) (by decide)
  · intro hcyc
    have hne := (detectCircular_ne_nil_iff _).mpr hcyc
    rcases List.exists_mem_of_ne_nil _ hne with ⟨e, he⟩
    refine ⟨e, ?_, (mem_detectCircularDependencies _ e he).1⟩
    rw [hparts]
    simp only [List.mem_append]
    exact Or.inl (Or.inl (Or.inr he))
